import Mathlib

/-!
Shallow embedding of the inventory-ledger core of `src/openapi/orderapi.py`:
the in-memory store (`DB` / `COUNTERS` globals), the Pydantic request models,
and the mutating route handlers.  Python dicts keyed by id are modelled as
lists in insertion order (a dict never holds two entries with one key, and
handlers only insert fresh keys, update values in place, or delete keys).
Python ints are `Int`, prices are exact rationals `ℚ`; `round(x, 2)` is
`round2` below (Mathlib's `round` rounds half away from the floor where
Python rounds half to even; no value arising in the claims is a tie).
Pydantic field validators run before a handler: enum-restricting validators
(`role`, `status`) are modelled as the input types `Role` / `StatusTarget`,
numeric validators (`quantity`, `price`) as a leading guard in the handler
returning a validation error.  Each handler returns `Except Err α × DB`,
threading the store state explicitly; an `HTTPException` raised at some
point returns the state as mutated up to that point (in this code, always
the unchanged state, which is proved below, not assumed).
-/

namespace OrderApi

/-- Order status values, `orderapi.py` statuses `pending`, `paid`,
`shipped`, `cancelled`. -/
inductive Status where
  | pending
  | paid
  | shipped
  | cancelled
deriving DecidableEq

/-- Targets accepted by the `OrderStatusUpdate` Pydantic model: its
`status_must_be_valid` validator admits only `paid`, `shipped`,
`cancelled`, so the handler never sees `pending` as a target. -/
inductive StatusTarget where
  | paid
  | shipped
  | cancelled
deriving DecidableEq

/-- Inclusion of validated targets into statuses. -/
def StatusTarget.toStatus : StatusTarget → Status
  | .paid => .paid
  | .shipped => .shipped
  | .cancelled => .cancelled

/-- User roles: the `role_must_be_valid` validator admits only `admin` and
`user`. -/
inductive Role where
  | admin
  | user
deriving DecidableEq

/-- A row of `DB["users"]`. -/
structure User where
  id : Nat
  name : String
  email : String
  role : Role
  created_at : String
deriving DecidableEq

/-- A row of `DB["products"]`. -/
structure Product where
  id : Nat
  name : String
  price : ℚ
  stock : Int
  category : String
deriving DecidableEq

/-- A row of `DB["orders"]`. -/
structure Order where
  id : Nat
  user_id : Nat
  product_id : Nat
  quantity : Int
  total : ℚ
  status : Status
  created_at : String
deriving DecidableEq

/-- A row of `DB["notes"]`; `updated_at` is absent until the first update. -/
structure Note where
  id : Nat
  title : String
  content : String
  tags : List String
  created_at : String
  updated_at : Option String
deriving DecidableEq

/-- The `COUNTERS` global: one id counter per table. -/
structure Counters where
  users : Nat
  products : Nat
  orders : Nat
  notes : Nat
deriving DecidableEq

/-- The `DB` global together with `COUNTERS`: the whole mutable state. -/
structure DB where
  users : List User
  products : List Product
  orders : List Order
  notes : List Note
  counters : Counters
deriving DecidableEq

/-- Structured errors raised by the handlers (the payload of each
constructor is exactly the data interpolated into the Python `detail`
string, plus validation messages raised by Pydantic validators). -/
inductive Err where
  | notFound (entity : String) (ident : Nat)
  | conflictEmail (email : String)
  | conflictPendingOrders (count : Nat)
  | insufficientStock (available requested : Int)
  | invalidTransition (current requested : Status) (allowed : List Status)
  | invalidValue (msg : String)
deriving DecidableEq

/-- The three error kinds of the spec's error taxonomy (HTTP 404 / 409 /
400-or-422). -/
inductive ErrKind where
  | notFound
  | conflict
  | invalidOperation
deriving DecidableEq

/-- Kind of each error: status-code class the HTTP layer assigns. -/
def Err.kind : Err → ErrKind
  | .notFound _ _ => .notFound
  | .conflictEmail _ => .conflict
  | .conflictPendingOrders _ => .conflict
  | .insufficientStock _ _ => .invalidOperation
  | .invalidTransition _ _ _ => .invalidOperation
  | .invalidValue _ => .invalidOperation

/-- Body of `POST /users` (`UserCreate`). -/
structure UserCreate where
  name : String
  email : String
  role : Role
deriving DecidableEq

/-- Body of `PATCH /users/{id}` (`UserUpdate`); absent fields are `none`. -/
structure UserUpdate where
  name : Option String
  email : Option String
  role : Option Role
deriving DecidableEq

/-- Body of `POST /products` (`ProductCreate`); note there is no validator
on `stock`. -/
structure ProductCreate where
  name : String
  price : ℚ
  category : String
  stock : Int
deriving DecidableEq

/-- Body of `PATCH /products/{id}` (`ProductUpdate`); it has no validators
at all. -/
structure ProductUpdate where
  name : Option String
  price : Option ℚ
  stock : Option Int
  category : Option String
deriving DecidableEq

/-- Body of `POST /orders` (`OrderCreate`). -/
structure OrderCreate where
  user_id : Nat
  product_id : Nat
  quantity : Int
deriving DecidableEq

/-- Body of `POST /notes` (`NoteCreate`). -/
structure NoteCreate where
  title : String
  content : String
  tags : List String
deriving DecidableEq

/-- Body of `PATCH /notes/{id}` (`NoteUpdate`). -/
structure NoteUpdate where
  title : Option String
  content : Option String
  tags : Option (List String)
deriving DecidableEq

/-- Dictionary lookup `DB["users"].get(i)`. -/
def findUser (db : DB) (i : Nat) : Option User :=
  db.users.find? (fun u => u.id = i)

/-- Dictionary lookup `DB["products"].get(i)`. -/
def findProduct (db : DB) (i : Nat) : Option Product :=
  db.products.find? (fun p => p.id = i)

/-- Dictionary lookup `DB["orders"].get(i)`. -/
def findOrder (db : DB) (i : Nat) : Option Order :=
  db.orders.find? (fun o => o.id = i)

/-- Dictionary lookup `DB["notes"].get(i)`. -/
def findNote (db : DB) (i : Nat) : Option Note :=
  db.notes.find? (fun n => n.id = i)

/-- In-place mutation of the dict entry with key `i` (a dict holds at most
one entry per key; mapping over all entries with that id is the same
operation on the list model). -/
def updateById {α : Type} (getId : α → Nat) (l : List α) (i : Nat)
    (f : α → α) : List α :=
  l.map (fun a => if getId a = i then f a else a)

/-- Python `round(q, 2)`: round to 2 decimal places. -/
def round2 (q : ℚ) : ℚ := (round (q * 100) : ℤ) / 100

/-- Handler `create_user` (`POST /users`): reject a duplicate email with a
conflict, otherwise assign `next_id("users")` and insert. -/
def create_user (db : DB) (body : UserCreate) (tnow : String) :
    Except Err User × DB :=
  if db.users.any (fun u => u.email = body.email) then
    (.error (.conflictEmail body.email), db)
  else
    let uid := db.counters.users + 1
    let user : User := ⟨uid, body.name, body.email, body.role, tnow⟩
    (.ok user,
      { db with users := db.users ++ [user],
                counters := { db.counters with users := uid } })

/-- Handler `update_user` (`PATCH /users/{id}`): apply the non-`None`
fields of the body to the found user.  There is no email-uniqueness check
here. -/
def update_user (db : DB) (uid : Nat) (body : UserUpdate) :
    Except Err User × DB :=
  match findUser db uid with
  | none => (.error (.notFound "User" uid), db)
  | some u =>
    let f : User → User := fun v =>
      { v with name := body.name.getD v.name,
               email := body.email.getD v.email,
               role := body.role.getD v.role }
    (.ok (f u), { db with users := updateById User.id db.users uid f })

/-- Handler `delete_user` (`DELETE /users/{id}`): remove the user, then set
status `cancelled` on every order of that user whose status is `pending`,
collecting the affected order ids in iteration order. -/
def delete_user (db : DB) (uid : Nat) : Except Err (Nat × List Nat) × DB :=
  if (findUser db uid).isSome then
    let cancelledIds :=
      (db.orders.filter
        (fun o => decide (o.user_id = uid ∧ o.status = Status.pending))).map
        Order.id
    (.ok (uid, cancelledIds),
      { db with
          users := db.users.filter (fun u => decide (u.id ≠ uid)),
          orders := db.orders.map (fun o =>
            if o.user_id = uid ∧ o.status = Status.pending then
              { o with status := Status.cancelled }
            else o) })
  else (.error (.notFound "User" uid), db)

/-- Handler `create_product` (`POST /products`); the leading guard is the
`price_positive` validator of `ProductCreate`.  `stock` is inserted
unchecked. -/
def create_product (db : DB) (body : ProductCreate) :
    Except Err Product × DB :=
  if body.price ≤ 0 then (.error (.invalidValue "price must be positive"), db)
  else
    let pid := db.counters.products + 1
    let product : Product := ⟨pid, body.name, body.price, body.stock, body.category⟩
    (.ok product,
      { db with products := db.products ++ [product],
                counters := { db.counters with products := pid } })

/-- Handler `update_product` (`PATCH /products/{id}`): apply the non-`None`
fields; no validation of any field, in particular `stock` may be set to a
negative value. -/
def update_product (db : DB) (pid : Nat) (body : ProductUpdate) :
    Except Err Product × DB :=
  match findProduct db pid with
  | none => (.error (.notFound "Product" pid), db)
  | some p =>
    let f : Product → Product := fun q =>
      { q with name := body.name.getD q.name,
               price := body.price.getD q.price,
               stock := body.stock.getD q.stock,
               category := body.category.getD q.category }
    (.ok (f p), { db with products := updateById Product.id db.products pid f })

/-- Handler `delete_product` (`DELETE /products/{id}`): blocked with a
conflict reporting the count when any `pending` order references the
product; otherwise the product is removed unconditionally. -/
def delete_product (db : DB) (pid : Nat) : Except Err Nat × DB :=
  if (findProduct db pid).isSome then
    let pending := db.orders.filter
      (fun o => decide (o.product_id = pid ∧ o.status = Status.pending))
    if pending.length ≠ 0 then
      (.error (.conflictPendingOrders pending.length), db)
    else
      (.ok pid,
        { db with products := db.products.filter (fun p => decide (p.id ≠ pid)) })
  else (.error (.notFound "Product" pid), db)

/-- Handler `restock_product` (`POST /products/{id}/restock`); the leading
guard is the `qty_positive` validator of `RestockRequest`. -/
def restock_product (db : DB) (pid : Nat) (qty : Int) :
    Except Err Product × DB :=
  if qty ≤ 0 then (.error (.invalidValue "quantity must be positive"), db)
  else
    match findProduct db pid with
    | none => (.error (.notFound "Product" pid), db)
    | some p =>
      (.ok { p with stock := p.stock + qty },
        { db with products := (updateById Product.id db.products pid
            (fun q => { q with stock := q.stock + qty })) })

/-- Handler `create_order` (`POST /orders`); the leading guard is the
`qty_positive` validator of `OrderCreate`.  Checks user, then product, then
stock; on success decrements the product's stock, assigns
`next_id("orders")` and inserts the order in status `pending` with
`total = round(price * quantity, 2)`. -/
def create_order (db : DB) (body : OrderCreate) (tnow : String) :
    Except Err Order × DB :=
  if body.quantity ≤ 0 then
    (.error (.invalidValue "quantity must be at least 1"), db)
  else if (findUser db body.user_id).isNone then
    (.error (.notFound "User" body.user_id), db)
  else
    match findProduct db body.product_id with
    | none => (.error (.notFound "Product" body.product_id), db)
    | some product =>
      if product.stock < body.quantity then
        (.error (.insufficientStock product.stock body.quantity), db)
      else
        let oid := db.counters.orders + 1
        let order : Order :=
          ⟨oid, body.user_id, body.product_id, body.quantity,
            round2 (product.price * (body.quantity : ℚ)), Status.pending, tnow⟩
        (.ok order,
          { db with
              products := (updateById Product.id db.products body.product_id
                (fun p => { p with stock := p.stock - body.quantity })),
              orders := db.orders ++ [order],
              counters := { db.counters with orders := oid } })

/-- The legal-transition table of `update_order_status`. -/
def transitions : Status → List Status
  | .pending => [.paid, .cancelled]
  | .paid => [.shipped, .cancelled]
  | .shipped => []
  | .cancelled => []

/-- Handler `update_order_status` (`PATCH /orders/{id}/status`): enforce
the transition table; on a transition into `cancelled` from `pending` or
`paid`, restore the order's quantity onto the referenced product's stock if
that product still exists. -/
def update_order_status (db : DB) (oid : Nat) (target : StatusTarget) :
    Except Err Order × DB :=
  match findOrder db oid with
  | none => (.error (.notFound "Order" oid), db)
  | some order =>
    let current := order.status
    if target.toStatus ∈ transitions current then
      let products' :=
        if target = StatusTarget.cancelled ∧
            (current = Status.pending ∨ current = Status.paid) then
          match findProduct db order.product_id with
          | some _ => updateById Product.id db.products order.product_id
              (fun p => { p with stock := p.stock + order.quantity })
          | none => db.products
        else db.products
      (.ok { order with status := target.toStatus },
        { db with
            products := products',
            orders := (updateById Order.id db.orders oid
              (fun o => { o with status := target.toStatus })) })
    else
      (.error (.invalidTransition current target.toStatus (transitions current)), db)

/-- Handler `create_note` (`POST /notes`). -/
def create_note (db : DB) (body : NoteCreate) (tnow : String) :
    Except Err Note × DB :=
  let nid := db.counters.notes + 1
  let note : Note := ⟨nid, body.title, body.content, body.tags, tnow, none⟩
  (.ok note,
    { db with notes := db.notes ++ [note],
              counters := { db.counters with notes := nid } })

/-- Handler `update_note` (`PATCH /notes/{id}`): apply the non-`None`
fields and set `updated_at` on every successful update. -/
def update_note (db : DB) (nid : Nat) (body : NoteUpdate) (tnow : String) :
    Except Err Note × DB :=
  match findNote db nid with
  | none => (.error (.notFound "Note" nid), db)
  | some n =>
    let f : Note → Note := fun m =>
      { m with title := body.title.getD m.title,
               content := body.content.getD m.content,
               tags := body.tags.getD m.tags,
               updated_at := some tnow }
    (.ok (f n), { db with notes := updateById Note.id db.notes nid f })

/-- Handler `delete_note` (`DELETE /notes/{id}`). -/
def delete_note (db : DB) (nid : Nat) : Except Err Nat × DB :=
  if (findNote db nid).isSome then
    (.ok nid, { db with notes := db.notes.filter (fun n => decide (n.id ≠ nid)) })
  else (.error (.notFound "Note" nid), db)

/-- The seed contents of `DB` and `COUNTERS` at module load, identical to
what the `reset` handler restores. -/
def seedDB : DB :=
  { users :=
      [⟨1, "Alice", "alice@example.com", .admin, "2024-01-01"⟩,
       ⟨2, "Bob", "bob@example.com", .user, "2024-01-02"⟩,
       ⟨3, "Charlie", "charlie@example.com", .user, "2024-01-03"⟩],
    products :=
      [⟨1, "Laptop", 999.99, 15, "electronics"⟩,
       ⟨2, "Headphones", 79.99, 42, "electronics"⟩,
       ⟨3, "Desk Chair", 249.99, 8, "furniture"⟩,
       ⟨4, "Notebook", 4.99, 200, "stationery"⟩],
    orders :=
      [⟨1, 1, 1, 1, 999.99, .shipped, "2024-01-10"⟩,
       ⟨2, 2, 2, 2, 159.98, .pending, "2024-01-11"⟩,
       ⟨3, 1, 3, 1, 249.99, .paid, "2024-01-12"⟩],
    notes := [],
    counters := ⟨3, 4, 3, 0⟩ }

/-- Handler `reset` (`POST /reset`): restore the seed data and counters. -/
def reset_to_seed (_db : DB) : Except Err Unit × DB := (.ok (), seedDB)

/-- One mutating ledger operation together with its request payload (read
endpoints do not touch `DB` or `COUNTERS`). -/
inductive Op where
  | createUser (body : UserCreate) (tnow : String)
  | updateUser (uid : Nat) (body : UserUpdate)
  | deleteUser (uid : Nat)
  | createProduct (body : ProductCreate)
  | updateProduct (pid : Nat) (body : ProductUpdate)
  | deleteProduct (pid : Nat)
  | restock (pid : Nat) (qty : Int)
  | createOrder (body : OrderCreate) (tnow : String)
  | setOrderStatus (oid : Nat) (target : StatusTarget)
  | createNote (body : NoteCreate) (tnow : String)
  | updateNote (nid : Nat) (body : NoteUpdate) (tnow : String)
  | deleteNote (nid : Nat)
  | reset
deriving DecidableEq

/-- State after one operation (a raised `HTTPException` leaves the state
the handler returns alongside the error, i.e. the globals as mutated so
far). -/
def step (db : DB) : Op → DB
  | .createUser body tnow => (create_user db body tnow).2
  | .updateUser uid body => (update_user db uid body).2
  | .deleteUser uid => (delete_user db uid).2
  | .createProduct body => (create_product db body).2
  | .updateProduct pid body => (update_product db pid body).2
  | .deleteProduct pid => (delete_product db pid).2
  | .restock pid qty => (restock_product db pid qty).2
  | .createOrder body tnow => (create_order db body tnow).2
  | .setOrderStatus oid target => (update_order_status db oid target).2
  | .createNote body tnow => (create_note db body tnow).2
  | .updateNote nid body tnow => (update_note db nid body tnow).2
  | .deleteNote nid => (delete_note db nid).2
  | .reset => (reset_to_seed db).2

/-- State after a sequence of operations. -/
def runOps (db : DB) : List Op → DB
  | [] => db
  | op :: ops => runOps (step db op) ops

/-- The four tables of `DB` / keys of `COUNTERS`. -/
inductive Table where
  | users
  | products
  | orders
  | notes
deriving DecidableEq

/-- Read one id counter, `COUNTERS[table]`. -/
def Counters.get : Counters → Table → Nat
  | c, .users => c.users
  | c, .products => c.products
  | c, .orders => c.orders
  | c, .notes => c.notes

/-- The identifier assigned by an operation in a given state, when the
operation is a create that succeeds (`next_id` is called exactly on the
success paths of the four create handlers). -/
def assigned (db : DB) : Op → Option (Table × Nat)
  | .createUser body tnow =>
    match (create_user db body tnow).1 with
    | .ok u => some (.users, u.id)
    | .error _ => none
  | .createProduct body =>
    match (create_product db body).1 with
    | .ok p => some (.products, p.id)
    | .error _ => none
  | .createOrder body tnow =>
    match (create_order db body tnow).1 with
    | .ok o => some (.orders, o.id)
    | .error _ => none
  | .createNote body tnow =>
    match (create_note db body tnow).1 with
    | .ok n => some (.notes, n.id)
    | .error _ => none
  | _ => none

/-- All `(table, id)` assignments made along a sequence of operations, in
order. -/
def trace (db : DB) : List Op → List (Table × Nat)
  | [] => []
  | op :: ops => (assigned db op).toList ++ trace (step db op) ops

/-- Stock-related store invariant: every product's stock and every order's
quantity is in range. -/
def StockInv (db : DB) : Prop :=
  (∀ p ∈ db.products, 0 ≤ p.stock) ∧ (∀ o ∈ db.orders, 1 ≤ o.quantity)

/-- Operations whose request supplies only nonnegative stock values (the
only two request fields able to carry an arbitrary stock integer, since
`ProductCreate.stock` and `ProductUpdate.stock` have no validator). -/
def GoodStockOp : Op → Prop
  | .createProduct body => 0 ≤ body.stock
  | .updateProduct _ body => ∀ s, body.stock = some s → 0 ≤ s
  | _ => True

/-- Operations that do not patch a user's email (`update_user` is the one
handler able to change an existing email). -/
def KeepsEmails : Op → Prop
  | .updateUser _ body => body.email = none
  | _ => True

/-- Email-uniqueness invariant over the current users. -/
def EmailUniq (db : DB) : Prop :=
  db.users.Pairwise (fun a b => a.email ≠ b.email)

/-- Ghost record of creation-time totals: each order's `total` as the
order table's rows were created. -/
def orderTotals (l : List Order) : List (Nat × ℚ) :=
  l.map (fun o => (o.id, o.total))

/-- One operation on the state paired with the ghost creation-totals map:
the ghost entry for an order id is written exactly when an order with that
id is created (by `create_order`, or by `reset` reinstalling the seed
orders), never on any later operation. -/
def stepG (s : DB × List (Nat × ℚ)) (op : Op) : DB × List (Nat × ℚ) :=
  let g :=
    match op with
    | .createOrder body tnow =>
      match (create_order s.1 body tnow).1 with
      | .ok o => (o.id, o.total) :: s.2
      | .error _ => s.2
    | .reset => orderTotals seedDB.orders
    | _ => s.2
  (step s.1 op, g)

/-- Run with the ghost creation-totals map. -/
def runG (s : DB × List (Nat × ℚ)) : List Op → DB × List (Nat × ℚ)
  | [] => s
  | op :: ops => runG (stepG s op) ops

/-- Well-formedness of the products table: ids are pairwise distinct and
bounded by the products counter (all reachable states satisfy this: ids
are assigned from the strictly increasing counter). -/
def ProductIdsOk (db : DB) : Prop :=
  (db.products.map Product.id).Nodup ∧
  ∀ p ∈ db.products, p.id ≤ db.counters.products

/-- Invariant tying each existing order to its ghost creation-total entry:
ids are bounded by the orders counter and every order's current `total` is
the recorded creation-time total. -/
def TotalsInv (s : DB × List (Nat × ℚ)) : Prop :=
  ∀ o ∈ s.1.orders, o.id ≤ s.1.counters.orders ∧ s.2.lookup o.id = some o.total

end OrderApi
namespace OrderApi

/-! Helper lemmas about dictionary lookups, in-place updates and the
invariants, shared by the claim theorems below. -/

/-- `find?` by id commutes with an id-preserving map. -/
theorem find?_map_of_id {α : Type} (getId : α → Nat) (f : α → α)
    (hf : ∀ a, getId (f a) = getId a) (l : List α) (i : Nat) :
    (l.map f).find? (fun a => getId a = i) =
      (l.find? (fun a => getId a = i)).map f := by
  rw [List.find?_map]
  have h : ((fun a => decide (getId a = i)) ∘ f) = fun a => decide (getId a = i) :=
    funext fun a => by simp [Function.comp, hf]
  rw [h]

/-- Looking up a key other than the filtered-out one is unchanged. -/
theorem find?_filter_ne {α : Type} (getId : α → Nat) (l : List α)
    (i j : Nat) (hij : j ≠ i) :
    (l.filter (fun a => decide (getId a ≠ i))).find? (fun a => getId a = j) =
      l.find? (fun a => getId a = j) := by
  rw [List.find?_filter]
  have h : (fun a => decide ((decide (getId a ≠ i)) = true ∧ (decide (getId a = j)) = true)) =
      fun a => decide (getId a = j) := by
    funext a
    rcases eq_or_ne (getId a) j with h1 | h1 <;> simp [h1, hij]
  rw [h]

/-- Looking up the deleted key yields nothing. -/
theorem find?_filter_self {α : Type} (getId : α → Nat) (l : List α) (i : Nat) :
    (l.filter (fun a => decide (getId a ≠ i))).find? (fun a => getId a = i) =
      none := by
  rw [List.find?_filter]
  rw [List.find?_eq_none]
  intro a _
  simp

theorem find?_updateById_ne {α : Type} (getId : α → Nat) (f : α → α)
    (hf : ∀ a, getId (f a) = getId a) (l : List α) (i j : Nat) (hij : j ≠ i) :
    (updateById getId l i f).find? (fun a => getId a = j) =
      l.find? (fun a => getId a = j) := by
  unfold updateById
  have hg : ∀ a, getId (if getId a = i then f a else a) = getId a := by
    intro a; by_cases h : getId a = i <;> simp [h, hf]
  rw [find?_map_of_id getId _ hg]
  rcases h : l.find? (fun a => getId a = j) with _ | a
  · rfl
  · have := List.find?_some h
    have ha : getId a = j := by simpa using this
    show some (if getId a = i then f a else a) = some a
    rw [if_neg (fun hcon => hij (ha.symm.trans hcon))]

theorem find?_updateById_self {α : Type} (getId : α → Nat) (f : α → α)
    (hf : ∀ a, getId (f a) = getId a) (l : List α) (i : Nat) (p : α)
    (h : l.find? (fun a => getId a = i) = some p) :
    (updateById getId l i f).find? (fun a => getId a = i) = some (f p) := by
  unfold updateById
  have hg : ∀ a, getId (if getId a = i then f a else a) = getId a := by
    intro a; by_cases hh : getId a = i <;> simp [hh, hf]
  rw [find?_map_of_id getId _ hg, h]
  have hp : getId p = i := by simpa using List.find?_some h
  simp [hp]

theorem mem_updateById {α : Type} (getId : α → Nat) (f : α → α) (l : List α)
    (i : Nat) (a' : α) (h : a' ∈ updateById getId l i f) :
    ∃ a ∈ l, a' = (if getId a = i then f a else a) := by
  unfold updateById at h
  rcases List.mem_map.mp h with ⟨a, ha, rfl⟩
  exact ⟨a, ha, rfl⟩

theorem map_getId_updateById {α : Type} (getId : α → Nat) (l : List α)
    (i : Nat) (f : α → α) (hf : ∀ a, getId (f a) = getId a) :
    (updateById getId l i f).map getId = l.map getId := by
  unfold updateById
  rw [List.map_map]
  exact List.map_congr_left
    (fun a _ => by by_cases h : getId a = i <;> simp [Function.comp, h, hf])

theorem findOrder_eq_of_orders_eq (db' db : DB) (h : db'.orders = db.orders)
    (i : Nat) : findOrder db' i = findOrder db i := by
  unfold findOrder
  rw [h]

theorem findOrder_map_of_id {db db' : DB} (f : Order → Order)
    (hid : ∀ o, (f o).id = o.id) (hord : db'.orders = db.orders.map f)
    (i : Nat) (o : Order) (h : findOrder db i = some o) :
    findOrder db' i = some (f o) := by
  unfold findOrder at h ⊢
  rw [hord, find?_map_of_id Order.id f hid db.orders i, h]
  rfl

theorem findOrder_append_of_found {db db' : DB} (x : Order)
    (hord : db'.orders = db.orders ++ [x]) (i : Nat) (o : Order)
    (h : findOrder db i = some o) : findOrder db' i = some o := by
  unfold findOrder at h ⊢
  rw [hord, List.find?_append, h]
  rfl

theorem productIdsOk_of_eq {db db' : DB} (h : ProductIdsOk db)
    (hp : db'.products = db.products)
    (hc : db'.counters.products = db.counters.products) : ProductIdsOk db' := by
  obtain ⟨hn, hb⟩ := h
  refine ⟨by rw [hp]; exact hn, ?_⟩
  intro p hmem
  rw [hp] at hmem
  rw [hc]
  exact hb p hmem

theorem productIdsOk_updateById {db : DB} (h : ProductIdsOk db) (i : Nat)
    (f : Product → Product) (hf : ∀ q, (f q).id = q.id) {db' : DB}
    (hp : db'.products = updateById Product.id db.products i f)
    (hc : db'.counters.products = db.counters.products) : ProductIdsOk db' := by
  obtain ⟨hn, hb⟩ := h
  refine ⟨?_, ?_⟩
  · rw [hp, map_getId_updateById Product.id db.products i f hf]
    exact hn
  · intro p hmem
    rw [hp] at hmem
    rcases mem_updateById Product.id f db.products i p hmem with ⟨a, ha, rfl⟩
    have hid : (if a.id = i then f a else a).id = a.id := by
      by_cases hcase : a.id = i <;> simp [hcase, hf]
    rw [hc, hid]
    exact hb a ha

theorem productIdsOk_step (db : DB) (op : Op) (h : ProductIdsOk db) :
    ProductIdsOk (step db op) := by
  cases op with
  | createUser body tnow =>
    by_cases hdup : db.users.any (fun u => u.email = body.email) <;>
      exact productIdsOk_of_eq h (by simp [step, create_user, hdup])
        (by simp [step, create_user, hdup])
  | updateUser uid body =>
    cases hf : findUser db uid <;>
      exact productIdsOk_of_eq h (by simp [step, update_user, hf])
        (by simp [step, update_user, hf])
  | deleteUser uid =>
    by_cases hf : (findUser db uid).isSome <;>
      exact productIdsOk_of_eq h (by simp [step, delete_user, hf])
        (by simp [step, delete_user, hf])
  | createProduct body =>
    by_cases hpr : body.price ≤ 0
    · exact productIdsOk_of_eq h (by simp [step, create_product, hpr])
        (by simp [step, create_product, hpr])
    · obtain ⟨hn, hb⟩ := h
      constructor
      · have : (step db (.createProduct body)).products.map Product.id =
            db.products.map Product.id ++ [db.counters.products + 1] := by
          simp [step, create_product, hpr]
        rw [this]
        rw [List.nodup_append]
        refine ⟨hn, List.nodup_singleton _, ?_⟩
        intro x hx
        rcases List.mem_map.mp hx with ⟨q, hq, rfl⟩
        have := hb q hq
        simp
        omega
      · intro p hmem
        have hmem2 : p ∈ db.products ++
            [⟨db.counters.products + 1, body.name, body.price, body.stock, body.category⟩] ∧
            (step db (.createProduct body)).counters.products = db.counters.products + 1 := by
          constructor
          · have : (step db (.createProduct body)).products = db.products ++
                [⟨db.counters.products + 1, body.name, body.price, body.stock, body.category⟩] := by
              simp [step, create_product, hpr]
            rw [this] at hmem
            exact hmem
          · simp [step, create_product, hpr]
        obtain ⟨hmem2, hcnt⟩ := hmem2
        rw [hcnt]
        rcases List.mem_append.mp hmem2 with hin | hin
        · have := hb p hin; omega
        · rw [List.mem_singleton] at hin
          subst hin
          simp
  | updateProduct pid body =>
    cases hf : findProduct db pid with
    | none =>
      exact productIdsOk_of_eq h (by simp [step, update_product, hf])
        (by simp [step, update_product, hf])
    | some p =>
      exact productIdsOk_updateById h pid
        (fun q =>
          { q with name := body.name.getD q.name,
                   price := body.price.getD q.price,
                   stock := body.stock.getD q.stock,
                   category := body.category.getD q.category })
        (fun q => rfl)
        (by simp [step, update_product, hf]) (by simp [step, update_product, hf])
  | deleteProduct pid =>
    by_cases hf : (findProduct db pid).isSome
    · by_cases hex : ∃ x ∈ db.orders, x.product_id = pid ∧ x.status = Status.pending
      · exact productIdsOk_of_eq h (by simp [step, delete_product, hf, hex])
          (by simp [step, delete_product, hf, hex])
      · obtain ⟨hn, hb⟩ := h
        have hprod : (step db (.deleteProduct pid)).products =
            db.products.filter (fun p => decide (p.id ≠ pid)) := by
          simp [step, delete_product, hf, hex]
        have hcnt : (step db (.deleteProduct pid)).counters.products =
            db.counters.products := by
          simp [step, delete_product, hf, hex]
        refine ⟨?_, ?_⟩
        · rw [hprod]
          exact List.Nodup.sublist (List.Sublist.map _ (List.filter_sublist _)) hn
        · intro p hmem
          rw [hprod] at hmem
          rw [hcnt]
          exact hb p (List.mem_filter.mp hmem).1
    · exact productIdsOk_of_eq h (by simp [step, delete_product, hf])
        (by simp [step, delete_product, hf])
  | restock pid qty =>
    by_cases hq : qty ≤ 0
    · exact productIdsOk_of_eq h (by simp [step, restock_product, hq])
        (by simp [step, restock_product, hq])
    · cases hf : findProduct db pid with
      | none =>
        exact productIdsOk_of_eq h (by simp [step, restock_product, hq, hf])
          (by simp [step, restock_product, hq, hf])
      | some p =>
        exact productIdsOk_updateById h pid
          (fun q => { q with stock := q.stock + qty }) (fun q => rfl)
          (by simp [step, restock_product, hq, hf])
          (by simp [step, restock_product, hq, hf])
  | createOrder body tnow =>
    by_cases hq : body.quantity ≤ 0
    · exact productIdsOk_of_eq h (by simp [step, create_order, hq])
        (by simp [step, create_order, hq])
    · by_cases hu : (findUser db body.user_id).isNone
      · exact productIdsOk_of_eq h (by simp [step, create_order, hq, hu])
          (by simp [step, create_order, hq, hu])
      · cases hf : findProduct db body.product_id with
        | none =>
          exact productIdsOk_of_eq h (by simp [step, create_order, hq, hu, hf])
            (by simp [step, create_order, hq, hu, hf])
        | some p =>
          by_cases hs : p.stock < body.quantity
          · exact productIdsOk_of_eq h (by simp [step, create_order, hq, hu, hf, hs])
              (by simp [step, create_order, hq, hu, hf, hs])
          · exact productIdsOk_updateById h body.product_id
              (fun q => { q with stock := q.stock - body.quantity }) (fun q => rfl)
              (by simp [step, create_order, hq, hu, hf, hs])
              (by simp [step, create_order, hq, hu, hf, hs])
  | setOrderStatus oid target =>
    cases hf : findOrder db oid with
    | none =>
      exact productIdsOk_of_eq h (by simp [step, update_order_status, hf])
        (by simp [step, update_order_status, hf])
    | some o =>
      by_cases hmem : target.toStatus ∈ transitions o.status
      · by_cases hcanc : target = StatusTarget.cancelled ∧
            (o.status = Status.pending ∨ o.status = Status.paid)
        · obtain ⟨htar, hsts⟩ := hcanc
          subst htar
          cases hfp : findProduct db o.product_id with
          | none =>
            exact productIdsOk_of_eq h
              (by simp [step, update_order_status, hf, hmem, hsts, hfp])
              (by simp [step, update_order_status, hf, hmem, hsts, hfp])
          | some p =>
            exact productIdsOk_updateById h o.product_id
              (fun q => { q with stock := q.stock + o.quantity }) (fun q => rfl)
              (by simp [step, update_order_status, hf, hmem, hsts, hfp])
              (by simp [step, update_order_status, hf, hmem, hsts, hfp])
        · exact productIdsOk_of_eq h
            (by simp [step, update_order_status, hf, hmem, hcanc])
            (by simp [step, update_order_status, hf, hmem, hcanc])
      · exact productIdsOk_of_eq h (by simp [step, update_order_status, hf, hmem])
          (by simp [step, update_order_status, hf, hmem])
  | createNote body tnow =>
    exact productIdsOk_of_eq h (by simp [step, create_note])
      (by simp [step, create_note])
  | updateNote nid body tnow =>
    cases hf : findNote db nid <;>
      exact productIdsOk_of_eq h (by simp [step, update_note, hf])
        (by simp [step, update_note, hf])
  | deleteNote nid =>
    by_cases hf : (findNote db nid).isSome <;>
      exact productIdsOk_of_eq h (by simp [step, delete_note, hf])
        (by simp [step, delete_note, hf])
  | reset =>
    refine ⟨?_, ?_⟩ <;> simp [step, reset_to_seed] <;> decide

theorem stockInv_of_eq {db db' : DB} (h : StockInv db)
    (hp : db'.products = db.products) (ho : db'.orders = db.orders) :
    StockInv db' := by
  obtain ⟨h1, h2⟩ := h
  constructor
  · intro p hmem; rw [hp] at hmem; exact h1 p hmem
  · intro o hmem; rw [ho] at hmem; exact h2 o hmem

theorem stockInv_step (db : DB) (op : Op) (hg : GoodStockOp op)
    (hids : ProductIdsOk db) (h : StockInv db) : StockInv (step db op) := by
  obtain ⟨h1, h2⟩ := h
  cases op with
  | createUser body tnow =>
    by_cases hdup : db.users.any (fun u => u.email = body.email) <;>
      exact stockInv_of_eq ⟨h1, h2⟩ (by simp [step, create_user, hdup])
        (by simp [step, create_user, hdup])
  | updateUser uid body =>
    cases hf : findUser db uid <;>
      exact stockInv_of_eq ⟨h1, h2⟩ (by simp [step, update_user, hf])
        (by simp [step, update_user, hf])
  | deleteUser uid =>
    by_cases hf : (findUser db uid).isSome
    · constructor
      · intro p hmem
        have hemp : (step db (.deleteUser uid)).products = db.products := by
          simp [step, delete_user, hf]
        rw [hemp] at hmem
        exact h1 p hmem
      · intro o hmem
        have hord : (step db (.deleteUser uid)).orders = db.orders.map (fun o =>
            if o.user_id = uid ∧ o.status = Status.pending then
              { o with status := Status.cancelled } else o) := by
          simp [step, delete_user, hf]
        rw [hord] at hmem
        rcases List.mem_map.mp hmem with ⟨a, ha, rfl⟩
        by_cases hcase : a.user_id = uid ∧ a.status = Status.pending <;>
          simp [hcase] <;> exact h2 a ha
    · exact stockInv_of_eq ⟨h1, h2⟩ (by simp [step, delete_user, hf])
        (by simp [step, delete_user, hf])
  | createProduct body =>
    by_cases hpr : body.price ≤ 0
    · exact stockInv_of_eq ⟨h1, h2⟩ (by simp [step, create_product, hpr])
        (by simp [step, create_product, hpr])
    · constructor
      · intro p hmem
        have hprod : (step db (.createProduct body)).products = db.products ++
            [⟨db.counters.products + 1, body.name, body.price, body.stock, body.category⟩] := by
          simp [step, create_product, hpr]
        rw [hprod] at hmem
        rcases List.mem_append.mp hmem with hin | hin
        · exact h1 p hin
        · rw [List.mem_singleton] at hin
          subst hin
          exact hg
      · intro o hmem
        have hord : (step db (.createProduct body)).orders = db.orders := by
          simp [step, create_product, hpr]
        rw [hord] at hmem
        exact h2 o hmem
  | updateProduct pid body =>
    cases hf : findProduct db pid with
    | none =>
      exact stockInv_of_eq ⟨h1, h2⟩ (by simp [step, update_product, hf])
        (by simp [step, update_product, hf])
    | some p =>
      constructor
      · intro q hmem
        have hprod : (step db (.updateProduct pid body)).products =
            updateById Product.id db.products pid
              (fun q =>
                { q with name := body.name.getD q.name,
                         price := body.price.getD q.price,
                         stock := body.stock.getD q.stock,
                         category := body.category.getD q.category }) := by
          simp [step, update_product, hf]
        rw [hprod] at hmem
        rcases mem_updateById Product.id _ db.products pid q hmem with ⟨a, ha, rfl⟩
        by_cases hcase : a.id = pid
        · simp only [hcase, if_pos]
          cases hstk : body.stock with
          | none => simpa [hstk] using h1 a ha
          | some s => simpa [hstk] using hg s hstk
        · simp only [hcase, if_neg, ite_false]
          exact h1 a ha
      · intro o hmem
        have hord : (step db (.updateProduct pid body)).orders = db.orders := by
          simp [step, update_product, hf]
        rw [hord] at hmem
        exact h2 o hmem
  | deleteProduct pid =>
    by_cases hf : (findProduct db pid).isSome
    · by_cases hex : ∃ x ∈ db.orders, x.product_id = pid ∧ x.status = Status.pending
      · exact stockInv_of_eq ⟨h1, h2⟩ (by simp [step, delete_product, hf, hex])
          (by simp [step, delete_product, hf, hex])
      · constructor
        · intro p hmem
          have hprod : (step db (.deleteProduct pid)).products =
              db.products.filter (fun p => decide (p.id ≠ pid)) := by
            simp [step, delete_product, hf, hex]
          rw [hprod] at hmem
          exact h1 p (List.mem_filter.mp hmem).1
        · intro o hmem
          have hord : (step db (.deleteProduct pid)).orders = db.orders := by
            simp [step, delete_product, hf, hex]
          rw [hord] at hmem
          exact h2 o hmem
    · exact stockInv_of_eq ⟨h1, h2⟩ (by simp [step, delete_product, hf])
        (by simp [step, delete_product, hf])
  | restock pid qty =>
    by_cases hq : qty ≤ 0
    · exact stockInv_of_eq ⟨h1, h2⟩ (by simp [step, restock_product, hq])
        (by simp [step, restock_product, hq])
    · cases hf : findProduct db pid with
      | none =>
        exact stockInv_of_eq ⟨h1, h2⟩ (by simp [step, restock_product, hq, hf])
          (by simp [step, restock_product, hq, hf])
      | some p =>
        constructor
        · intro q hmem
          have hprod : (step db (.restock pid qty)).products =
              updateById Product.id db.products pid
                (fun q => { q with stock := q.stock + qty }) := by
            simp [step, restock_product, hq, hf]
          rw [hprod] at hmem
          rcases mem_updateById Product.id _ db.products pid q hmem with ⟨a, ha, rfl⟩
          have := h1 a ha
          by_cases hcase : a.id = pid <;> simp [hcase] <;> omega
        · intro o hmem
          have hord : (step db (.restock pid qty)).orders = db.orders := by
            simp [step, restock_product, hq, hf]
          rw [hord] at hmem
          exact h2 o hmem
  | createOrder body tnow =>
    by_cases hq : body.quantity ≤ 0
    · exact stockInv_of_eq ⟨h1, h2⟩ (by simp [step, create_order, hq])
        (by simp [step, create_order, hq])
    · by_cases hu : (findUser db body.user_id).isNone
      · exact stockInv_of_eq ⟨h1, h2⟩ (by simp [step, create_order, hq, hu])
          (by simp [step, create_order, hq, hu])
      · cases hf : findProduct db body.product_id with
        | none =>
          exact stockInv_of_eq ⟨h1, h2⟩ (by simp [step, create_order, hq, hu, hf])
            (by simp [step, create_order, hq, hu, hf])
        | some p =>
          by_cases hs : p.stock < body.quantity
          · exact stockInv_of_eq ⟨h1, h2⟩ (by simp [step, create_order, hq, hu, hf, hs])
              (by simp [step, create_order, hq, hu, hf, hs])
          · constructor
            · intro q hmem
              have hprod : (step db (.createOrder body tnow)).products =
                  updateById Product.id db.products body.product_id
                    (fun q => { q with stock := q.stock - body.quantity }) := by
                simp [step, create_order, hq, hu, hf, hs]
              rw [hprod] at hmem
              rcases mem_updateById Product.id _ db.products body.product_id q hmem
                with ⟨a, ha, rfl⟩
              by_cases hcase : a.id = body.product_id
              · have haeq : a = p :=
                  List.inj_on_of_nodup_map hids.1 ha
                    (List.mem_of_find?_eq_some hf)
                    (by
                      have hpid : p.id = body.product_id := by
                        simpa using List.find?_some hf
                      rw [hcase, hpid])
                subst haeq
                simp [hcase]
                omega
              · simp [hcase]
                exact h1 a ha
            · intro o hmem
              have hord : (step db (.createOrder body tnow)).orders = db.orders ++
                  [⟨db.counters.orders + 1, body.user_id, body.product_id, body.quantity,
                    round2 (p.price * (body.quantity : ℚ)), Status.pending, tnow⟩] := by
                simp [step, create_order, hq, hu, hf, hs]
              rw [hord] at hmem
              rcases List.mem_append.mp hmem with hin | hin
              · exact h2 o hin
              · rw [List.mem_singleton] at hin
                subst hin
                simp
                omega
  | setOrderStatus oid target =>
    cases hf : findOrder db oid with
    | none =>
      exact stockInv_of_eq ⟨h1, h2⟩ (by simp [step, update_order_status, hf])
        (by simp [step, update_order_status, hf])
    | some o =>
      by_cases hmem : target.toStatus ∈ transitions o.status
      · have hordmap : ∀ db' : DB, db'.orders = updateById Order.id db.orders oid
            (fun x => { x with status := target.toStatus }) →
            ∀ o2 ∈ db'.orders, 1 ≤ o2.quantity := by
          intro db' hord o2 hmem2
          rw [hord] at hmem2
          rcases mem_updateById Order.id _ db.orders oid o2 hmem2 with ⟨a, ha, rfl⟩
          by_cases hcase : a.id = oid <;> simp [hcase] <;> exact h2 a ha
        by_cases hcanc : target = StatusTarget.cancelled ∧
            (o.status = Status.pending ∨ o.status = Status.paid)
        · obtain ⟨htar, hsts⟩ := hcanc
          subst htar
          cases hfp : findProduct db o.product_id with
          | none =>
            constructor
            · intro p hmem2
              have hprod : (step db (.setOrderStatus oid .cancelled)).products =
                  db.products := by
                simp [step, update_order_status, hf, hmem, hsts, hfp]
              rw [hprod] at hmem2
              exact h1 p hmem2
            · exact hordmap _ (by simp [step, update_order_status, hf, hmem, hsts, hfp])
          | some p =>
            constructor
            · intro q hmem2
              have hprod : (step db (.setOrderStatus oid .cancelled)).products =
                  updateById Product.id db.products o.product_id
                    (fun q => { q with stock := q.stock + o.quantity }) := by
                simp [step, update_order_status, hf, hmem, hsts, hfp]
              rw [hprod] at hmem2
              rcases mem_updateById Product.id _ db.products o.product_id q hmem2
                with ⟨a, ha, rfl⟩
              have hq1 := h1 a ha
              have hq2 := h2 o (List.mem_of_find?_eq_some hf)
              by_cases hcase : a.id = o.product_id <;> simp [hcase] <;> omega
            · exact hordmap _ (by simp [step, update_order_status, hf, hmem, hsts, hfp])
        · constructor
          · intro p hmem2
            have hprod : (step db (.setOrderStatus oid target)).products =
                db.products := by
              simp [step, update_order_status, hf, hmem, hcanc]
            rw [hprod] at hmem2
            exact h1 p hmem2
          · exact hordmap _ (by simp [step, update_order_status, hf, hmem, hcanc])
      · exact stockInv_of_eq ⟨h1, h2⟩ (by simp [step, update_order_status, hf, hmem])
          (by simp [step, update_order_status, hf, hmem])
  | createNote body tnow =>
    exact stockInv_of_eq ⟨h1, h2⟩ (by simp [step, create_note])
      (by simp [step, create_note])
  | updateNote nid body tnow =>
    cases hf : findNote db nid <;>
      exact stockInv_of_eq ⟨h1, h2⟩ (by simp [step, update_note, hf])
        (by simp [step, update_note, hf])
  | deleteNote nid =>
    by_cases hf : (findNote db nid).isSome <;>
      exact stockInv_of_eq ⟨h1, h2⟩ (by simp [step, delete_note, hf])
        (by simp [step, delete_note, hf])
  | reset =>
    constructor <;> simp [step, reset_to_seed] <;> decide

theorem stockInv_runOps (ops : List Op) (db : DB)
    (hg : ∀ op ∈ ops, GoodStockOp op) (hids : ProductIdsOk db)
    (h : StockInv db) : StockInv (runOps db ops) := by
  induction ops generalizing db with
  | nil => exact h
  | cons op ops ih =>
    exact ih (step db op) (fun x hx => hg x (List.mem_cons_of_mem _ hx))
      (productIdsOk_step db op hids)
      (stockInv_step db op (hg op (List.mem_cons_self _ _)) hids h)

theorem emailUniq_of_eq {db db' : DB} (h : EmailUniq db)
    (hu : db'.users = db.users) : EmailUniq db' := by
  unfold EmailUniq at h ⊢
  rw [hu]
  exact h

theorem emailUniq_step (db : DB) (op : Op) (hg : KeepsEmails op)
    (h : EmailUniq db) : EmailUniq (step db op) := by
  cases op with
  | createUser body tnow =>
    by_cases hdup : db.users.any (fun u => u.email = body.email)
    · exact emailUniq_of_eq h (by simp [step, create_user, hdup])
    · have husers : (step db (.createUser body tnow)).users = db.users ++
          [⟨db.counters.users + 1, body.name, body.email, body.role, tnow⟩] := by
        simp [step, create_user, hdup]
      unfold EmailUniq
      rw [husers, List.pairwise_append]
      refine ⟨h, List.pairwise_singleton _ _, ?_⟩
      intro a ha b hb
      rw [List.mem_singleton] at hb
      subst hb
      simp only [List.any_eq_true, not_exists, not_and] at hdup
      intro hcon
      have := hdup a ha
      simp at this
      exact this hcon
  | updateUser uid body =>
    cases hf : findUser db uid with
    | none => exact emailUniq_of_eq h (by simp [step, update_user, hf])
    | some u =>
      have hem : body.email = none := hg
      have husers : (step db (.updateUser uid body)).users =
          db.users.map (fun v => if v.id = uid then
            { v with name := body.name.getD v.name,
                     email := body.email.getD v.email,
                     role := body.role.getD v.role } else v) := by
        simp [step, update_user, hf, updateById]
      unfold EmailUniq
      rw [husers, List.pairwise_map]
      have hpres : ∀ v : User, (if v.id = uid then
          { v with name := body.name.getD v.name,
                   email := body.email.getD v.email,
                   role := body.role.getD v.role } else v).email = v.email := by
        intro v
        by_cases hcase : v.id = uid <;> simp [hcase, hem]
      refine h.imp ?_
      intro a b hab
      rw [hpres a, hpres b]
      exact hab
  | deleteUser uid =>
    by_cases hf : (findUser db uid).isSome
    · have husers : (step db (.deleteUser uid)).users =
          db.users.filter (fun u => decide (u.id ≠ uid)) := by
        simp [step, delete_user, hf]
      unfold EmailUniq
      rw [husers]
      exact List.Pairwise.sublist (List.filter_sublist _) h
    · exact emailUniq_of_eq h (by simp [step, delete_user, hf])
  | createProduct body =>
    by_cases hpr : body.price ≤ 0 <;>
      exact emailUniq_of_eq h (by simp [step, create_product, hpr])
  | updateProduct pid body =>
    cases hf : findProduct db pid <;>
      exact emailUniq_of_eq h (by simp [step, update_product, hf])
  | deleteProduct pid =>
    by_cases hf : (findProduct db pid).isSome
    · by_cases hex : ∃ x ∈ db.orders, x.product_id = pid ∧ x.status = Status.pending <;>
        exact emailUniq_of_eq h (by simp [step, delete_product, hf, hex])
    · exact emailUniq_of_eq h (by simp [step, delete_product, hf])
  | restock pid qty =>
    by_cases hq : qty ≤ 0
    · exact emailUniq_of_eq h (by simp [step, restock_product, hq])
    · cases hf : findProduct db pid <;>
        exact emailUniq_of_eq h (by simp [step, restock_product, hq, hf])
  | createOrder body tnow =>
    by_cases hq : body.quantity ≤ 0
    · exact emailUniq_of_eq h (by simp [step, create_order, hq])
    · by_cases hu : (findUser db body.user_id).isNone
      · exact emailUniq_of_eq h (by simp [step, create_order, hq, hu])
      · cases hf : findProduct db body.product_id with
        | none => exact emailUniq_of_eq h (by simp [step, create_order, hq, hu, hf])
        | some p =>
          by_cases hs : p.stock < body.quantity <;>
            exact emailUniq_of_eq h (by simp [step, create_order, hq, hu, hf, hs])
  | setOrderStatus oid target =>
    cases hf : findOrder db oid with
    | none => exact emailUniq_of_eq h (by simp [step, update_order_status, hf])
    | some o =>
      by_cases hmem : target.toStatus ∈ transitions o.status
      · by_cases hcanc : target = StatusTarget.cancelled ∧
            (o.status = Status.pending ∨ o.status = Status.paid)
        · obtain ⟨htar, hsts⟩ := hcanc
          subst htar
          cases hfp : findProduct db o.product_id <;>
            exact emailUniq_of_eq h
              (by simp [step, update_order_status, hf, hmem, hsts, hfp])
        · exact emailUniq_of_eq h (by simp [step, update_order_status, hf, hmem, hcanc])
      · exact emailUniq_of_eq h (by simp [step, update_order_status, hf, hmem])
  | createNote body tnow => exact emailUniq_of_eq h (by simp [step, create_note])
  | updateNote nid body tnow =>
    cases hf : findNote db nid <;>
      exact emailUniq_of_eq h (by simp [step, update_note, hf])
  | deleteNote nid =>
    by_cases hf : (findNote db nid).isSome <;>
      exact emailUniq_of_eq h (by simp [step, delete_note, hf])
  | reset =>
    unfold EmailUniq
    simp [step, reset_to_seed]
    decide

theorem emailUniq_runOps (ops : List Op) (db : DB)
    (hg : ∀ op ∈ ops, KeepsEmails op) (h : EmailUniq db) :
    EmailUniq (runOps db ops) := by
  induction ops generalizing db with
  | nil => exact h
  | cons op ops ih =>
    exact ih (step db op) (fun x hx => hg x (List.mem_cons_of_mem _ hx))
      (emailUniq_step db op (hg op (List.mem_cons_self _ _)) h)

theorem counters_mono (db : DB) (op : Op) (hop : op ≠ Op.reset) (t : Table) :
    Counters.get db.counters t ≤ Counters.get (step db op).counters t := by
  cases op with
  | createUser body tnow =>
    by_cases hdup : db.users.any (fun u => u.email = body.email) <;>
      cases t <;> simp [step, create_user, hdup, Counters.get]
  | updateUser uid body =>
    cases hf : findUser db uid <;> cases t <;> simp [step, update_user, hf, Counters.get]
  | deleteUser uid =>
    by_cases hf : (findUser db uid).isSome <;>
      cases t <;> simp [step, delete_user, hf, Counters.get]
  | createProduct body =>
    by_cases hpr : body.price ≤ 0 <;>
      cases t <;> simp [step, create_product, hpr, Counters.get]
  | updateProduct pid body =>
    cases hf : findProduct db pid <;>
      cases t <;> simp [step, update_product, hf, Counters.get]
  | deleteProduct pid =>
    by_cases hf : (findProduct db pid).isSome
    · by_cases hex : ∃ x ∈ db.orders, x.product_id = pid ∧ x.status = Status.pending <;>
        cases t <;> simp [step, delete_product, hf, hex, Counters.get]
    · cases t <;> simp [step, delete_product, hf, Counters.get]
  | restock pid qty =>
    by_cases hq : qty ≤ 0
    · cases t <;> simp [step, restock_product, hq, Counters.get]
    · cases hf : findProduct db pid <;>
        cases t <;> simp [step, restock_product, hq, hf, Counters.get]
  | createOrder body tnow =>
    by_cases hq : body.quantity ≤ 0
    · cases t <;> simp [step, create_order, hq, Counters.get]
    · by_cases hu : (findUser db body.user_id).isNone
      · cases t <;> simp [step, create_order, hq, hu, Counters.get]
      · cases hf : findProduct db body.product_id with
        | none => cases t <;> simp [step, create_order, hq, hu, hf, Counters.get]
        | some p =>
          by_cases hs : p.stock < body.quantity <;>
            cases t <;> simp [step, create_order, hq, hu, hf, hs, Counters.get]
  | setOrderStatus oid target =>
    cases hf : findOrder db oid with
    | none => cases t <;> simp [step, update_order_status, hf, Counters.get]
    | some o =>
      by_cases hmem : target.toStatus ∈ transitions o.status
      · by_cases hcanc : target = StatusTarget.cancelled ∧
            (o.status = Status.pending ∨ o.status = Status.paid)
        · obtain ⟨htar, hsts⟩ := hcanc
          subst htar
          cases hfp : findProduct db o.product_id <;>
            cases t <;>
              simp [step, update_order_status, hf, hmem, hsts, hfp, Counters.get]
        · cases t <;> simp [step, update_order_status, hf, hmem, hcanc, Counters.get]
      · cases t <;> simp [step, update_order_status, hf, hmem, Counters.get]
  | createNote body tnow => cases t <;> simp [step, create_note, Counters.get]
  | updateNote nid body tnow =>
    cases hf : findNote db nid <;> cases t <;> simp [step, update_note, hf, Counters.get]
  | deleteNote nid =>
    by_cases hf : (findNote db nid).isSome <;>
      cases t <;> simp [step, delete_note, hf, Counters.get]
  | reset => exact absurd rfl hop

theorem assigned_eq (db : DB) (op : Op) (t : Table) (n : Nat)
    (h : assigned db op = some (t, n)) :
    n = Counters.get db.counters t + 1 ∧
    Counters.get (step db op).counters t = n := by
  cases op with
  | createUser body tnow =>
    by_cases hdup : db.users.any (fun u => u.email = body.email)
    · simp [assigned, create_user, hdup] at h
    · simp [assigned, create_user, hdup] at h
      obtain ⟨rfl, rfl⟩ := h
      constructor <;> simp [step, create_user, hdup, Counters.get]
  | createProduct body =>
    by_cases hpr : body.price ≤ 0
    · simp [assigned, create_product, hpr] at h
    · simp [assigned, create_product, hpr] at h
      obtain ⟨rfl, rfl⟩ := h
      constructor <;> simp [step, create_product, hpr, Counters.get]
  | createOrder body tnow =>
    by_cases hq : body.quantity ≤ 0
    · simp [assigned, create_order, hq] at h
    · by_cases hu : (findUser db body.user_id).isNone
      · simp [assigned, create_order, hq, hu] at h
      · cases hf : findProduct db body.product_id with
        | none => simp [assigned, create_order, hq, hu, hf] at h
        | some p =>
          by_cases hs : p.stock < body.quantity
          · simp [assigned, create_order, hq, hu, hf, hs] at h
          · simp [assigned, create_order, hq, hu, hf, hs] at h
            obtain ⟨rfl, rfl⟩ := h
            constructor <;> simp [step, create_order, hq, hu, hf, hs, Counters.get]
  | createNote body tnow =>
    simp [assigned, create_note] at h
    obtain ⟨rfl, rfl⟩ := h
    constructor <;> simp [step, create_note, Counters.get]
  | updateUser uid body => simp [assigned] at h
  | deleteUser uid => simp [assigned] at h
  | updateProduct pid body => simp [assigned] at h
  | deleteProduct pid => simp [assigned] at h
  | restock pid qty => simp [assigned] at h
  | setOrderStatus oid target => simp [assigned] at h
  | updateNote nid body tnow => simp [assigned] at h
  | deleteNote nid => simp [assigned] at h
  | reset => simp [assigned] at h

theorem trace_counter_lt (ops : List Op) (db : DB) (hnr : Op.reset ∉ ops)
    (t : Table) (n : Nat) (h : (t, n) ∈ trace db ops) :
    Counters.get db.counters t < n := by
  induction ops generalizing db with
  | nil => simp [trace] at h
  | cons op ops ih =>
    rw [trace] at h
    rcases List.mem_append.mp h with hin | hin
    · cases ha : assigned db op with
      | none => rw [ha] at hin; simp at hin
      | some p =>
        rw [ha] at hin
        simp at hin
        subst hin
        obtain ⟨h1, _⟩ := assigned_eq db op t n ha
        omega
    · have hop : op ≠ Op.reset := fun hcon => hnr (hcon ▸ List.mem_cons_self _ _)
      have hlt := ih (step db op) (fun hcon => hnr (List.mem_cons_of_mem _ hcon)) hin
      have hmono := counters_mono db op hop t
      omega

theorem trace_pairwise (ops : List Op) (db : DB) (hnr : Op.reset ∉ ops) (t : Table) :
    ((trace db ops).filterMap
      (fun p => if p.1 = t then some p.2 else none)).Pairwise (· < ·) := by
  induction ops generalizing db with
  | nil => simp [trace]
  | cons op ops ih =>
    have hnr2 : Op.reset ∉ ops := fun hcon => hnr (List.mem_cons_of_mem _ hcon)
    have hop : op ≠ Op.reset := fun hcon => hnr (hcon ▸ List.mem_cons_self _ _)
    rw [trace, List.filterMap_append]
    cases ha : assigned db op with
    | none => simpa using ih (step db op) hnr2
    | some p =>
      obtain ⟨t2, n⟩ := p
      by_cases ht : t2 = t
      · subst ht
        have hhead : (Option.toList (some (t2, n))).filterMap
            (fun p => if p.1 = t2 then some p.2 else none) = [n] := by simp
        rw [hhead]
        refine List.pairwise_cons.mpr ⟨?_, ih (step db op) hnr2⟩
        intro m hm
        rcases List.mem_filterMap.mp hm with ⟨⟨t3, m2⟩, hmem3, hif⟩
        by_cases ht3 : t3 = t2
        · subst ht3
          simp at hif
          subst hif
          have hlt := trace_counter_lt ops (step db op) hnr2 t3 m2 hmem3
          obtain ⟨_, h2⟩ := assigned_eq db op t3 n ha
          omega
        · simp [ht3] at hif
      · have hhead : (Option.toList (some (t2, n))).filterMap
            (fun p => if p.1 = t then some p.2 else none) = [] := by simp [ht]
        rw [hhead]
        simpa using ih (step db op) hnr2

theorem totalsInv_of_eq {s s' : DB × List (Nat × ℚ)} (h : TotalsInv s)
    (ho : s'.1.orders = s.1.orders) (hc : s'.1.counters.orders = s.1.counters.orders)
    (hg : s'.2 = s.2) : TotalsInv s' := by
  intro o hmem
  rw [ho] at hmem
  rw [hc, hg]
  exact h o hmem

theorem totalsInv_of_statusMap {s s' : DB × List (Nat × ℚ)} (h : TotalsInv s)
    (f : Order → Order) (hid : ∀ o, (f o).id = o.id)
    (htot : ∀ o, (f o).total = o.total)
    (ho : s'.1.orders = s.1.orders.map f)
    (hc : s'.1.counters.orders = s.1.counters.orders)
    (hg : s'.2 = s.2) : TotalsInv s' := by
  intro o hmem
  rw [ho] at hmem
  rcases List.mem_map.mp hmem with ⟨a, ha, rfl⟩
  obtain ⟨h1, h2⟩ := h a ha
  rw [hc, hg, hid, htot]
  exact ⟨h1, h2⟩

theorem totalsInv_stepG (s : DB × List (Nat × ℚ)) (op : Op) (h : TotalsInv s) :
    TotalsInv (stepG s op) := by
  obtain ⟨db, g⟩ := s
  cases op with
  | createUser body tnow =>
    by_cases hdup : db.users.any (fun u => u.email = body.email) <;>
      exact totalsInv_of_eq h (by simp [stepG, step, create_user, hdup])
        (by simp [stepG, step, create_user, hdup]) (by simp [stepG])
  | updateUser uid body =>
    cases hf : findUser db uid <;>
      exact totalsInv_of_eq h (by simp [stepG, step, update_user, hf])
        (by simp [stepG, step, update_user, hf]) (by simp [stepG])
  | deleteUser uid =>
    by_cases hf : (findUser db uid).isSome
    · exact totalsInv_of_statusMap h
        (fun o => if o.user_id = uid ∧ o.status = Status.pending then
          { o with status := Status.cancelled } else o)
        (fun o => by by_cases hcase : o.user_id = uid ∧ o.status = Status.pending <;>
          simp [hcase])
        (fun o => by by_cases hcase : o.user_id = uid ∧ o.status = Status.pending <;>
          simp [hcase])
        (by simp [stepG, step, delete_user, hf])
        (by simp [stepG, step, delete_user, hf]) (by simp [stepG])
    · exact totalsInv_of_eq h (by simp [stepG, step, delete_user, hf])
        (by simp [stepG, step, delete_user, hf]) (by simp [stepG])
  | createProduct body =>
    by_cases hpr : body.price ≤ 0 <;>
      exact totalsInv_of_eq h (by simp [stepG, step, create_product, hpr])
        (by simp [stepG, step, create_product, hpr]) (by simp [stepG])
  | updateProduct pid body =>
    cases hf : findProduct db pid <;>
      exact totalsInv_of_eq h (by simp [stepG, step, update_product, hf])
        (by simp [stepG, step, update_product, hf]) (by simp [stepG])
  | deleteProduct pid =>
    by_cases hf : (findProduct db pid).isSome
    · by_cases hex : ∃ x ∈ db.orders, x.product_id = pid ∧ x.status = Status.pending <;>
        exact totalsInv_of_eq h (by simp [stepG, step, delete_product, hf, hex])
          (by simp [stepG, step, delete_product, hf, hex]) (by simp [stepG])
    · exact totalsInv_of_eq h (by simp [stepG, step, delete_product, hf])
        (by simp [stepG, step, delete_product, hf]) (by simp [stepG])
  | restock pid qty =>
    by_cases hq : qty ≤ 0
    · exact totalsInv_of_eq h (by simp [stepG, step, restock_product, hq])
        (by simp [stepG, step, restock_product, hq]) (by simp [stepG])
    · cases hf : findProduct db pid <;>
        exact totalsInv_of_eq h (by simp [stepG, step, restock_product, hq, hf])
          (by simp [stepG, step, restock_product, hq, hf]) (by simp [stepG])
  | createOrder body tnow =>
    by_cases hq : body.quantity ≤ 0
    · exact totalsInv_of_eq h (by simp [stepG, step, create_order, hq])
        (by simp [stepG, step, create_order, hq]) (by simp [stepG, create_order, hq])
    · by_cases hu : (findUser db body.user_id).isNone
      · exact totalsInv_of_eq h (by simp [stepG, step, create_order, hq, hu])
          (by simp [stepG, step, create_order, hq, hu]) (by simp [stepG, create_order, hq, hu])
      · cases hf : findProduct db body.product_id with
        | none =>
          exact totalsInv_of_eq h (by simp [stepG, step, create_order, hq, hu, hf])
            (by simp [stepG, step, create_order, hq, hu, hf])
            (by simp [stepG, create_order, hq, hu, hf])
        | some p =>
          by_cases hs : p.stock < body.quantity
          · exact totalsInv_of_eq h (by simp [stepG, step, create_order, hq, hu, hf, hs])
              (by simp [stepG, step, create_order, hq, hu, hf, hs])
              (by simp [stepG, create_order, hq, hu, hf, hs])
          · intro o hmem
            have hord : (stepG (db, g) (.createOrder body tnow)).1.orders =
                db.orders ++
                  [⟨db.counters.orders + 1, body.user_id, body.product_id, body.quantity,
                    round2 (p.price * (body.quantity : ℚ)), Status.pending, tnow⟩] := by
              simp [stepG, step, create_order, hq, hu, hf, hs]
            have hcnt : (stepG (db, g) (.createOrder body tnow)).1.counters.orders =
                db.counters.orders + 1 := by
              simp [stepG, step, create_order, hq, hu, hf, hs]
            have hgh : (stepG (db, g) (.createOrder body tnow)).2 =
                (db.counters.orders + 1,
                  round2 (p.price * (body.quantity : ℚ))) :: g := by
              simp [stepG, create_order, hq, hu, hf, hs]
            rw [hord] at hmem
            rw [hcnt, hgh]
            rcases List.mem_append.mp hmem with hin | hin
            · obtain ⟨h1, h2⟩ := h o hin
              have h1b : o.id ≤ db.counters.orders := h1
              have h2b : List.lookup o.id g = some o.total := h2
              have hne : o.id ≠ db.counters.orders + 1 := by omega
              have hbeq : (o.id == db.counters.orders + 1) = false :=
                beq_eq_false_iff_ne.mpr hne
              refine ⟨by omega, ?_⟩
              rw [List.lookup_cons, hbeq]
              exact h2b
            · rw [List.mem_singleton] at hin
              subst hin
              refine ⟨Nat.le_refl _, ?_⟩
              rw [List.lookup_cons]
              simp
  | setOrderStatus oid target =>
    cases hf : findOrder db oid with
    | none =>
      exact totalsInv_of_eq h (by simp [stepG, step, update_order_status, hf])
        (by simp [stepG, step, update_order_status, hf]) (by simp [stepG])
    | some o =>
      by_cases hmem : target.toStatus ∈ transitions o.status
      · have hmap : ∀ db2 : DB,
            db2.orders = updateById Order.id db.orders oid
              (fun x => { x with status := target.toStatus }) →
            db2.counters.orders = db.counters.orders →
            TotalsInv (db2, g) := by
          intro db2 hord hcnt
          refine totalsInv_of_statusMap (s := (db, g)) h
            (fun x => if x.id = oid then { x with status := target.toStatus } else x)
            (fun x => by by_cases hcase : x.id = oid <;> simp [hcase])
            (fun x => by by_cases hcase : x.id = oid <;> simp [hcase])
            (by simpa [updateById] using hord) (by simpa using hcnt) rfl
        by_cases hcanc : target = StatusTarget.cancelled ∧
            (o.status = Status.pending ∨ o.status = Status.paid)
        · obtain ⟨htar, hsts⟩ := hcanc
          subst htar
          cases hfp : findProduct db o.product_id with
          | none =>
            have hres := hmap (stepG (db, g) (.setOrderStatus oid .cancelled)).1
              (by simp [stepG, step, update_order_status, hf, hmem, hsts, hfp])
              (by simp [stepG, step, update_order_status, hf, hmem, hsts, hfp])
            intro o2 hmem2
            have hgh : (stepG (db, g) (.setOrderStatus oid .cancelled)).2 = g := by
              simp [stepG]
            obtain ⟨h1, h2⟩ := hres o2 hmem2
            exact ⟨h1, by rw [hgh]; exact h2⟩
          | some p =>
            have hres := hmap (stepG (db, g) (.setOrderStatus oid .cancelled)).1
              (by simp [stepG, step, update_order_status, hf, hmem, hsts, hfp])
              (by simp [stepG, step, update_order_status, hf, hmem, hsts, hfp])
            intro o2 hmem2
            have hgh : (stepG (db, g) (.setOrderStatus oid .cancelled)).2 = g := by
              simp [stepG]
            obtain ⟨h1, h2⟩ := hres o2 hmem2
            exact ⟨h1, by rw [hgh]; exact h2⟩
        · have hres := hmap (stepG (db, g) (.setOrderStatus oid target)).1
            (by simp [stepG, step, update_order_status, hf, hmem, hcanc])
            (by simp [stepG, step, update_order_status, hf, hmem, hcanc])
          intro o2 hmem2
          have hgh : (stepG (db, g) (.setOrderStatus oid target)).2 = g := by
            simp [stepG]
          obtain ⟨h1, h2⟩ := hres o2 hmem2
          exact ⟨h1, by rw [hgh]; exact h2⟩
      · exact totalsInv_of_eq h (by simp [stepG, step, update_order_status, hf, hmem])
          (by simp [stepG, step, update_order_status, hf, hmem]) (by simp [stepG])
  | createNote body tnow =>
    exact totalsInv_of_eq h (by simp [stepG, step, create_note])
      (by simp [stepG, step, create_note]) (by simp [stepG])
  | updateNote nid body tnow =>
    cases hf : findNote db nid <;>
      exact totalsInv_of_eq h (by simp [stepG, step, update_note, hf])
        (by simp [stepG, step, update_note, hf]) (by simp [stepG])
  | deleteNote nid =>
    by_cases hf : (findNote db nid).isSome <;>
      exact totalsInv_of_eq h (by simp [stepG, step, delete_note, hf])
        (by simp [stepG, step, delete_note, hf]) (by simp [stepG])
  | reset =>
    intro o hmem
    have hdb : (stepG (db, g) Op.reset).1 = seedDB := by simp [stepG, step, reset_to_seed]
    have hgh : (stepG (db, g) Op.reset).2 = orderTotals seedDB.orders := by simp [stepG]
    rw [hdb] at hmem
    rw [hdb, hgh]
    have hmem2 : o ∈ seedDB.orders := hmem
    simp only [seedDB] at hmem2
    rcases List.mem_cons.mp hmem2 with rfl | hmem2
    · exact ⟨by decide, rfl⟩
    rcases List.mem_cons.mp hmem2 with rfl | hmem2
    · exact ⟨by decide, rfl⟩
    rcases List.mem_cons.mp hmem2 with rfl | hmem2
    · exact ⟨by decide, rfl⟩
    cases hmem2

theorem totalsInv_runG (ops : List Op) (s : DB × List (Nat × ℚ))
    (h : TotalsInv s) : TotalsInv (runG s ops) := by
  induction ops generalizing s with
  | nil => exact h
  | cons op ops ih => exact ih (stepG s op) (totalsInv_stepG s op h)

theorem runG_fst (ops : List Op) (s : DB × List (Nat × ℚ)) :
    (runG s ops).1 = runOps s.1 ops := by
  induction ops generalizing s with
  | nil => rfl
  | cons op ops ih =>
    show (runG (stepG s op) ops).1 = runOps s.1 (op :: ops)
    rw [ih (stepG s op)]
    rfl

theorem findOrder_step_total (db : DB) (op : Op) (hop : op ≠ Op.reset)
    (i : Nat) (o : Order) (h : findOrder db i = some o) :
    ∃ o2, findOrder (step db op) i = some o2 ∧ o2.total = o.total := by
  cases op with
  | createUser body tnow =>
    by_cases hdup : db.users.any (fun u => u.email = body.email) <;>
      exact ⟨o, (findOrder_eq_of_orders_eq _ _ (by simp [step, create_user, hdup]) i).trans h, rfl⟩
  | updateUser uid body =>
    cases hf : findUser db uid <;>
      exact ⟨o, (findOrder_eq_of_orders_eq _ _ (by simp [step, update_user, hf]) i).trans h, rfl⟩
  | deleteUser uid =>
    by_cases hf : (findUser db uid).isSome
    · refine ⟨(fun x => if x.user_id = uid ∧ x.status = Status.pending then
        { x with status := Status.cancelled } else x) o, ?_, ?_⟩
      · exact findOrder_map_of_id
          (fun x => if x.user_id = uid ∧ x.status = Status.pending then
            { x with status := Status.cancelled } else x)
          (fun x => by
            by_cases hcase : x.user_id = uid ∧ x.status = Status.pending <;>
              simp [hcase])
          (by simp [step, delete_user, hf]) i o h
      · by_cases hcase : o.user_id = uid ∧ o.status = Status.pending <;> simp [hcase]
    · exact ⟨o, (findOrder_eq_of_orders_eq _ _ (by simp [step, delete_user, hf]) i).trans h, rfl⟩
  | createProduct body =>
    by_cases hpr : body.price ≤ 0 <;>
      exact ⟨o, (findOrder_eq_of_orders_eq _ _ (by simp [step, create_product, hpr]) i).trans h, rfl⟩
  | updateProduct pid body =>
    cases hf : findProduct db pid <;>
      exact ⟨o, (findOrder_eq_of_orders_eq _ _ (by simp [step, update_product, hf]) i).trans h, rfl⟩
  | deleteProduct pid =>
    by_cases hf : (findProduct db pid).isSome
    · by_cases hex : ∃ x ∈ db.orders, x.product_id = pid ∧ x.status = Status.pending <;>
        exact ⟨o, (findOrder_eq_of_orders_eq _ _ (by simp [step, delete_product, hf, hex]) i).trans h, rfl⟩
    · exact ⟨o, (findOrder_eq_of_orders_eq _ _ (by simp [step, delete_product, hf]) i).trans h, rfl⟩
  | restock pid qty =>
    by_cases hq : qty ≤ 0
    · exact ⟨o, (findOrder_eq_of_orders_eq _ _ (by simp [step, restock_product, hq]) i).trans h, rfl⟩
    · cases hf : findProduct db pid <;>
        exact ⟨o, (findOrder_eq_of_orders_eq _ _ (by simp [step, restock_product, hq, hf]) i).trans h, rfl⟩
  | createOrder body tnow =>
    by_cases hq : body.quantity ≤ 0
    · exact ⟨o, (findOrder_eq_of_orders_eq _ _ (by simp [step, create_order, hq]) i).trans h, rfl⟩
    · by_cases hu : (findUser db body.user_id).isNone
      · exact ⟨o, (findOrder_eq_of_orders_eq _ _ (by simp [step, create_order, hq, hu]) i).trans h, rfl⟩
      · cases hf : findProduct db body.product_id with
        | none =>
          exact ⟨o, (findOrder_eq_of_orders_eq _ _ (by simp [step, create_order, hq, hu, hf]) i).trans h, rfl⟩
        | some p =>
          by_cases hs : p.stock < body.quantity
          · exact ⟨o, (findOrder_eq_of_orders_eq _ _ (by simp [step, create_order, hq, hu, hf, hs]) i).trans h, rfl⟩
          · exact ⟨o, findOrder_append_of_found
              ⟨db.counters.orders + 1, body.user_id, body.product_id, body.quantity,
                round2 (p.price * (body.quantity : ℚ)), Status.pending, tnow⟩
              (by simp [step, create_order, hq, hu, hf, hs]) i o h, rfl⟩
  | setOrderStatus oid target =>
    cases hf : findOrder db oid with
    | none =>
      exact ⟨o, (findOrder_eq_of_orders_eq _ _ (by simp [step, update_order_status, hf]) i).trans h, rfl⟩
    | some o3 =>
      by_cases hmem : target.toStatus ∈ transitions o3.status
      · have hordup : (step db (.setOrderStatus oid target)).orders =
            db.orders.map (fun x => if x.id = oid then
              { x with status := target.toStatus } else x) := by
          by_cases hcanc : target = StatusTarget.cancelled ∧
              (o3.status = Status.pending ∨ o3.status = Status.paid)
          · obtain ⟨htar, hsts⟩ := hcanc
            subst htar
            cases hfp : findProduct db o3.product_id <;>
              simp [step, update_order_status, hf, hmem, hsts, hfp, updateById]
          · simp [step, update_order_status, hf, hmem, hcanc, updateById]
        refine ⟨(fun x => if x.id = oid then
          { x with status := target.toStatus } else x) o, ?_, ?_⟩
        · exact findOrder_map_of_id
            (fun x => if x.id = oid then { x with status := target.toStatus } else x)
            (fun x => by by_cases hcase : x.id = oid <;> simp [hcase]) hordup i o h
        · by_cases hcase : o.id = oid <;> simp [hcase]
      · exact ⟨o, (findOrder_eq_of_orders_eq _ _ (by simp [step, update_order_status, hf, hmem]) i).trans h, rfl⟩
  | createNote body tnow =>
    exact ⟨o, (findOrder_eq_of_orders_eq _ _ (by simp [step, create_note]) i).trans h, rfl⟩
  | updateNote nid body tnow =>
    cases hf : findNote db nid <;>
      exact ⟨o, (findOrder_eq_of_orders_eq _ _ (by simp [step, update_note, hf]) i).trans h, rfl⟩
  | deleteNote nid =>
    by_cases hf : (findNote db nid).isSome <;>
      exact ⟨o, (findOrder_eq_of_orders_eq _ _ (by simp [step, delete_note, hf]) i).trans h, rfl⟩
  | reset => exact absurd rfl hop

theorem findOrder_runOps_total (more : List Op) (hnr : Op.reset ∉ more)
    (db : DB) (i : Nat) (o : Order) (h : findOrder db i = some o) :
    ∃ o2, findOrder (runOps db more) i = some o2 ∧ o2.total = o.total := by
  induction more generalizing db o with
  | nil => exact ⟨o, h, rfl⟩
  | cons op ops ih =>
    have hop : op ≠ Op.reset := fun hcon => hnr (hcon ▸ List.mem_cons_self _ _)
    obtain ⟨o2, h2, ht2⟩ := findOrder_step_total db op hop i o h
    obtain ⟨o3, h3, ht3⟩ := ih (fun hcon => hnr (List.mem_cons_of_mem _ hcon))
      (step db op) o2 h2
    exact ⟨o3, h3, ht3.trans ht2⟩

/-- C2: `create_order` checks, in this order, user existence, product
existence, and sufficient stock; each failure returns the corresponding
error (`notFound`, `notFound`, `insufficientStock` of kind
invalid-operation) and the returned store state is exactly the input state
(no partial mutation).  The hypothesis `1 ≤ quantity` is the `qty_positive`
validator of `OrderCreate`, which admits the request to the handler. -/
theorem create_order_validates (db : DB) (body : OrderCreate) (tnow : String)
    (hq : 1 ≤ body.quantity) :
    ((findUser db body.user_id = none →
        create_order db body tnow = (.error (.notFound "User" body.user_id), db)) ∧
     (∀ u, findUser db body.user_id = some u →
        findProduct db body.product_id = none →
        create_order db body tnow = (.error (.notFound "Product" body.product_id), db)) ∧
     (∀ u p, findUser db body.user_id = some u →
        findProduct db body.product_id = some p →
        p.stock < body.quantity →
        create_order db body tnow = (.error (.insufficientStock p.stock body.quantity), db))) ∧
    ((Err.notFound "User" body.user_id).kind = .notFound ∧
     (Err.notFound "Product" body.product_id).kind = .notFound ∧
     ∀ av rq, (Err.insufficientStock av rq).kind = .invalidOperation) := by
  have hq' : ¬ (body.quantity ≤ 0) := by omega
  refine ⟨⟨?_, ?_, ?_⟩, rfl, rfl, fun _ _ => rfl⟩
  · intro h; simp [create_order, hq', h]
  · intro u hu hp; simp [create_order, hq', hu, hp]
  · intro u p hu hp hs; simp [create_order, hq', hu, hp, hs]

/-- C2 witness: the three failure modes at concrete seed inputs — unknown
user 99, unknown product 99, and the spec scenario `place_order(1, 3, 10)`
against stock 8 — each return the stated error with the store unchanged. -/
theorem create_order_validates_w :
    create_order seedDB ⟨99, 1, 1⟩ "t" = (.error (.notFound "User" 99), seedDB) ∧
    create_order seedDB ⟨1, 99, 1⟩ "t" = (.error (.notFound "Product" 99), seedDB) ∧
    create_order seedDB ⟨1, 3, 10⟩ "t" = (.error (.insufficientStock 8 10), seedDB) := by
  refine ⟨?_, ?_, ?_⟩
  · exact (create_order_validates seedDB ⟨99, 1, 1⟩ "t" (by decide)).1.1 (by rfl)
  · exact (create_order_validates seedDB ⟨1, 99, 1⟩ "t" (by decide)).1.2.1
      ⟨1, "Alice", "alice@example.com", .admin, "2024-01-01"⟩ (by rfl) (by rfl)
  · exact (create_order_validates seedDB ⟨1, 3, 10⟩ "t" (by decide)).1.2.2
      ⟨1, "Alice", "alice@example.com", .admin, "2024-01-01"⟩
      ⟨3, "Desk Chair", 249.99, 8, "furniture"⟩ (by rfl) (by rfl) (by decide)

/-- C3: on a successful `create_order` (user exists, product exists,
`1 ≤ quantity ≤ stock`, and the assigned id is not yet in use, as in every
reachable state), the product's stock is decremented by exactly the
quantity, a new order is inserted under the fresh id `orders counter + 1`
with status `pending` and `total = round2 (price * quantity)`, and nothing
else changes.  The witness instantiates the seed scenario
`place_order(1, 2, 2)`: total `159.98`, remaining stock `40`. -/
theorem create_order_success (db : DB) (body : OrderCreate) (tnow : String)
    (u : User) (p : Product)
    (hu : findUser db body.user_id = some u)
    (hp : findProduct db body.product_id = some p)
    (hq : 1 ≤ body.quantity) (hs : body.quantity ≤ p.stock)
    (hfresh : findOrder db (db.counters.orders + 1) = none) :
    ∃ order : Order,
      (create_order db body tnow).1 = .ok order ∧
      order.id = db.counters.orders + 1 ∧
      order.user_id = body.user_id ∧
      order.product_id = body.product_id ∧
      order.quantity = body.quantity ∧
      order.status = .pending ∧
      order.total = round2 (p.price * (body.quantity : ℚ)) ∧
      order.created_at = tnow ∧
      findOrder (create_order db body tnow).2 order.id = some order ∧
      (∀ j, j ≠ order.id →
        findOrder (create_order db body tnow).2 j = findOrder db j) ∧
      findProduct (create_order db body tnow).2 body.product_id =
        some { p with stock := p.stock - body.quantity } ∧
      (∀ j, j ≠ body.product_id →
        findProduct (create_order db body tnow).2 j = findProduct db j) ∧
      (create_order db body tnow).2.counters.orders = db.counters.orders + 1 ∧
      (create_order db body tnow).2.users = db.users ∧
      (create_order db body tnow).2.notes = db.notes ∧
      (create_order db body tnow).2.counters.users = db.counters.users ∧
      (create_order db body tnow).2.counters.products = db.counters.products ∧
      (create_order db body tnow).2.counters.notes = db.counters.notes := by
  have hq2 : ¬ (body.quantity ≤ 0) := by omega
  have hs2 : ¬ (p.stock < body.quantity) := by omega
  have hco : create_order db body tnow =
      (.ok ⟨db.counters.orders + 1, body.user_id, body.product_id, body.quantity,
          round2 (p.price * (body.quantity : ℚ)), Status.pending, tnow⟩,
        { db with
            products := (updateById Product.id db.products body.product_id
              (fun q => { q with stock := q.stock - body.quantity })),
            orders := db.orders ++
              [⟨db.counters.orders + 1, body.user_id, body.product_id, body.quantity,
                round2 (p.price * (body.quantity : ℚ)), Status.pending, tnow⟩],
            counters := { db.counters with orders := db.counters.orders + 1 } }) := by
    simp [create_order, hq2, hu, hp, hs2]
  refine ⟨⟨db.counters.orders + 1, body.user_id, body.product_id, body.quantity,
      round2 (p.price * (body.quantity : ℚ)), Status.pending, tnow⟩,
    by rw [hco], rfl, rfl, rfl, rfl, rfl, rfl, rfl, ?_, ?_, ?_, ?_,
    by rw [hco], by rw [hco], by rw [hco], by rw [hco], by rw [hco], by rw [hco]⟩
  · rw [hco]
    unfold findOrder at hfresh ⊢
    simp only
    rw [List.find?_append, hfresh]
    simp [List.find?]
  · intro j hj
    rw [hco]
    unfold findOrder
    simp only
    rw [List.find?_append]
    have hnone : List.find? (fun o => decide (o.id = j))
        [(⟨db.counters.orders + 1, body.user_id, body.product_id, body.quantity,
          round2 (p.price * (body.quantity : ℚ)), Status.pending, tnow⟩ : Order)] = none := by
      refine List.find?_eq_none.mpr ?_
      intro x hx
      rw [List.mem_singleton] at hx
      subst hx
      simp only [decide_eq_true_eq]
      exact fun hcon => hj hcon.symm
    rw [hnone, Option.or_none]
  · rw [hco]
    unfold findProduct at hp ⊢
    simp only
    exact find?_updateById_self Product.id
      (fun q => { q with stock := q.stock - body.quantity }) (fun q => rfl)
      db.products body.product_id p hp
  · intro j hj
    rw [hco]
    unfold findProduct
    simp only
    exact find?_updateById_ne Product.id
      (fun q => { q with stock := q.stock - body.quantity }) (fun q => rfl)
      db.products body.product_id j hj

/-- C3 witness: the spec scenario `place_order(1, 2, 2)` against the seed
creates order 4 in status `pending` with total `159.98` and leaves product
2 with stock `40`. -/
theorem create_order_success_w :
    (create_order seedDB ⟨1, 2, 2⟩ "t").1 =
      .ok ⟨4, 1, 2, 2, 159.98, .pending, "t"⟩ ∧
    findProduct (create_order seedDB ⟨1, 2, 2⟩ "t").2 2 =
      some ⟨2, "Headphones", 79.99, 40, "electronics"⟩ := by
  obtain ⟨order, h1, hid, huid, hpid, hqt, hstt, htot, hca,
      hfo, hfo2, hprod, hprod2, hc1, hu2, hn2, hc2, hc3, hc4⟩ :=
    create_order_success seedDB ⟨1, 2, 2⟩ "t"
      ⟨1, "Alice", "alice@example.com", .admin, "2024-01-01"⟩
      ⟨2, "Headphones", 79.99, 42, "electronics"⟩
      rfl rfl (by decide) (by decide) rfl
  have horder : order = ⟨4, 1, 2, 2, 159.98, .pending, "t"⟩ := by
    have ht : order.total = 159.98 := by
      rw [htot]; norm_num [round2, round_eq]
    cases order
    simp only at hid huid hpid hqt hstt ht hca
    simp [hid, huid, hpid, hqt, hstt, ht, hca, seedDB]
  refine ⟨by rw [h1, horder], ?_⟩
  rw [hprod]
  norm_num

/-- C4: for an existing order, `update_order_status` succeeds iff the
requested target is in the allowed set of the current status, where the
allowed sets are exactly pending → [paid, cancelled], paid → [shipped,
cancelled], shipped → [] and cancelled → []; an illegal request fails with
an invalid-transition error carrying the current status, the requested
status and the allowed set, and the state (hence the order's status) is
unchanged.  The target ranges over `StatusTarget`, the values admitted by
the `OrderStatusUpdate` validator. -/
theorem update_order_status_state_machine (db : DB) (oid : Nat)
    (target : StatusTarget) (o : Order) (ho : findOrder db oid = some o) :
    (transitions .pending = [.paid, .cancelled] ∧
     transitions .paid = [.shipped, .cancelled] ∧
     transitions .shipped = [] ∧
     transitions .cancelled = []) ∧
    ((update_order_status db oid target).1.isOk = true ↔
      target.toStatus ∈ transitions o.status) ∧
    (target.toStatus ∉ transitions o.status →
      update_order_status db oid target =
        (.error (.invalidTransition o.status target.toStatus (transitions o.status)), db)) := by
  refine ⟨⟨rfl, rfl, rfl, rfl⟩, ?_, ?_⟩
  · by_cases hmem : target.toStatus ∈ transitions o.status
    · simp [update_order_status, ho, hmem, Except.isOk, Except.toBool]
    · simp [update_order_status, ho, hmem, Except.isOk, Except.toBool]
  · intro hmem
    simp [update_order_status, ho, hmem]

/-- C5: a successful cancellation of a `pending` or `paid` order adds
exactly the order's quantity back onto the referenced product's stock when
that product still exists and changes no other product; when the product
has been deleted the products table is untouched; transitions to targets
other than `cancelled` never change any product; cancelling from a
terminal status fails and leaves the state unchanged. -/
theorem cancellation_restores_stock (db : DB) (oid : Nat) (target : StatusTarget)
    (o : Order) (ho : findOrder db oid = some o) :
    ((o.status = .pending ∨ o.status = .paid) →
      (update_order_status db oid .cancelled).1.isOk = true ∧
      (∀ p, findProduct db o.product_id = some p →
        findProduct (update_order_status db oid .cancelled).2 o.product_id =
          some { p with stock := p.stock + o.quantity } ∧
        (∀ j, j ≠ o.product_id →
          findProduct (update_order_status db oid .cancelled).2 j = findProduct db j)) ∧
      (findProduct db o.product_id = none →
        (update_order_status db oid .cancelled).2.products = db.products)) ∧
    (target ≠ .cancelled →
      (update_order_status db oid target).2.products = db.products) ∧
    (¬ (o.status = .pending ∨ o.status = .paid) →
      update_order_status db oid .cancelled =
        (.error (.invalidTransition o.status Status.cancelled (transitions o.status)), db)) := by
  refine ⟨?_, ?_, ?_⟩
  · intro hst
    have hmem : StatusTarget.toStatus .cancelled ∈ transitions o.status := by
      rcases hst with h | h <;> rw [h] <;> simp [transitions, StatusTarget.toStatus]
    have hcond : StatusTarget.cancelled = StatusTarget.cancelled ∧
        (o.status = Status.pending ∨ o.status = Status.paid) := ⟨rfl, hst⟩
    refine ⟨?_, ?_, ?_⟩
    · simp [update_order_status, ho, hmem, Except.isOk, Except.toBool]
    · intro p hp
      constructor
      · simp only [update_order_status, ho, hmem, if_pos, hcond, hp]
        simp [hst]
        unfold findProduct at hp ⊢
        exact find?_updateById_self Product.id
          (fun q => { q with stock := q.stock + o.quantity }) (fun q => rfl)
          db.products o.product_id p hp
      · intro j hj
        simp only [update_order_status, ho, hmem, if_pos, hcond, hp]
        simp [hst]
        unfold findProduct
        exact find?_updateById_ne Product.id
          (fun q => { q with stock := q.stock + o.quantity }) (fun q => rfl)
          db.products o.product_id j hj
    · intro hp
      simp [update_order_status, ho, hmem, hp, hst]
  · intro htar
    by_cases hmem : target.toStatus ∈ transitions o.status
    · simp [update_order_status, ho, hmem, htar]
    · simp [update_order_status, ho, hmem]
  · intro hst
    have hmem : Status.cancelled ∉ transitions o.status := by
      push_neg at hst
      cases hcs : o.status <;> simp [transitions, hcs] <;> simp [hcs] at hst
    simp [update_order_status, ho, hmem, StatusTarget.toStatus]

/-- C6: deleting an existing user removes the user, flips exactly the
deleted user's `pending` orders to `cancelled` (pointwise over the order
table), returns the list of affected order ids in table order, and leaves
the products (hence every stock), the notes and all counters unchanged. -/
theorem delete_user_cascade (db : DB) (uid : Nat)
    (hu : (findUser db uid).isSome = true) :
    (delete_user db uid).1 = .ok (uid,
      ((db.orders.filter
        (fun o => decide (o.user_id = uid ∧ o.status = Status.pending))).map Order.id)) ∧
    findUser (delete_user db uid).2 uid = none ∧
    (∀ j, j ≠ uid → findUser (delete_user db uid).2 j = findUser db j) ∧
    (delete_user db uid).2.orders.length = db.orders.length ∧
    (∀ k (hk : k < db.orders.length) (hk2 : k < (delete_user db uid).2.orders.length),
      (delete_user db uid).2.orders.get ⟨k, hk2⟩ =
        (if (db.orders.get ⟨k, hk⟩).user_id = uid ∧
            (db.orders.get ⟨k, hk⟩).status = Status.pending
         then { db.orders.get ⟨k, hk⟩ with status := Status.cancelled }
         else db.orders.get ⟨k, hk⟩)) ∧
    (delete_user db uid).2.products = db.products ∧
    (delete_user db uid).2.notes = db.notes ∧
    (delete_user db uid).2.counters = db.counters := by
  refine ⟨by simp [delete_user, hu], ?_, ?_, by simp [delete_user, hu], ?_,
    by simp [delete_user, hu], by simp [delete_user, hu], by simp [delete_user, hu]⟩
  · simp only [delete_user, hu, if_pos]
    unfold findUser
    exact find?_filter_self User.id db.users uid
  · intro j hj
    simp only [delete_user, hu, if_pos]
    unfold findUser
    exact find?_filter_ne User.id db.users uid j hj
  · intro k hk hk2
    simp [delete_user, hu, List.getElem_map]

/-- C7: deleting an existing product fails with a conflict reporting the
count of blocking orders exactly when at least one `pending` order
references the product, and then the whole store is unchanged; with no
pending reference the product is removed and the orders (in whatever
status), users, notes and counters stay as they were. -/
theorem delete_product_guard (db : DB) (pid : Nat)
    (hp : (findProduct db pid).isSome = true) :
    (db.orders.filter (fun o => decide (o.product_id = pid ∧ o.status = Status.pending)) ≠ [] →
      delete_product db pid =
        (.error (.conflictPendingOrders (db.orders.filter
          (fun o => decide (o.product_id = pid ∧ o.status = Status.pending))).length), db)) ∧
    (db.orders.filter (fun o => decide (o.product_id = pid ∧ o.status = Status.pending)) = [] →
      (delete_product db pid).1 = .ok pid ∧
      findProduct (delete_product db pid).2 pid = none ∧
      (∀ j, j ≠ pid → findProduct (delete_product db pid).2 j = findProduct db j) ∧
      (delete_product db pid).2.orders = db.orders ∧
      (delete_product db pid).2.users = db.users ∧
      (delete_product db pid).2.notes = db.notes ∧
      (delete_product db pid).2.counters = db.counters) ∧
    (∀ n, (Err.conflictPendingOrders n).kind = .conflict) := by
  refine ⟨?_, ?_, fun n => rfl⟩
  · intro hne
    rcases List.exists_mem_of_ne_nil _ hne with ⟨x, hx⟩
    have hx2 := List.mem_filter.mp hx
    simp [delete_product, hp]
    exact ⟨x, hx2.1, by simpa using hx2.2⟩
  · intro hnil
    have hall : ∀ a ∈ db.orders, a.product_id = pid → ¬ a.status = Status.pending := by
      intro a ha h1 h2
      have hmem : a ∈ db.orders.filter
          (fun o => decide (o.product_id = pid ∧ o.status = Status.pending)) :=
        List.mem_filter.mpr ⟨ha, by simp [h1, h2]⟩
      rw [hnil] at hmem
      simp at hmem
    have hnot : ¬ ∃ x ∈ db.orders, x.product_id = pid ∧ x.status = Status.pending := by
      push_neg
      exact hall
    refine ⟨by simp [delete_product, hp, hnot], ?_, ?_,
      by simp [delete_product, hp, hnot], by simp [delete_product, hp, hnot],
      by simp [delete_product, hp, hnot], by simp [delete_product, hp, hnot]⟩
    · have h2 : findProduct (delete_product db pid).2 pid =
          (db.products.filter (fun p => decide (p.id ≠ pid))).find?
            (fun p => p.id = pid) := by
        unfold findProduct
        simp [delete_product, hp, hnot]
      rw [h2]
      exact find?_filter_self Product.id db.products pid
    · intro j hj
      have h2 : findProduct (delete_product db pid).2 j =
          (db.products.filter (fun p => decide (p.id ≠ pid))).find?
            (fun p => p.id = j) := by
        unfold findProduct
        simp [delete_product, hp, hnot]
      rw [h2]
      exact find?_filter_ne Product.id db.products pid j hj

end OrderApi
namespace OrderApi

/-- C4 witness: against the seed, requesting `shipped` on order 2 (status
`pending`) is rejected with the invalid-transition error naming `pending`,
`shipped` and the allowed set, while requesting `paid` succeeds. -/
theorem update_order_status_state_machine_w :
    update_order_status seedDB 2 StatusTarget.shipped =
      (.error (.invalidTransition Status.pending Status.shipped
        [Status.paid, Status.cancelled]), seedDB) ∧
    (update_order_status seedDB 2 StatusTarget.paid).1.isOk = true := by
  constructor
  · exact (update_order_status_state_machine seedDB 2 .shipped
      ⟨2, 2, 2, 2, 159.98, .pending, "2024-01-11"⟩ rfl).2.2 (by decide)
  · exact ((update_order_status_state_machine seedDB 2 .paid
      ⟨2, 2, 2, 2, 159.98, .pending, "2024-01-11"⟩ rfl).2.1).mpr (by decide)

/-- C5 witness: cancelling seed order 2 (pending, quantity 2, product 2)
succeeds and raises product 2's stock from 42 to 44. -/
theorem cancellation_restores_stock_w :
    (update_order_status seedDB 2 StatusTarget.cancelled).1.isOk = true ∧
    findProduct (update_order_status seedDB 2 StatusTarget.cancelled).2 2 =
      some ⟨2, "Headphones", 79.99, 44, "electronics"⟩ := by
  obtain ⟨h1, h2, h3⟩ := (cancellation_restores_stock seedDB 2 .cancelled
    ⟨2, 2, 2, 2, 159.98, .pending, "2024-01-11"⟩ rfl).1 (Or.inl rfl)
  obtain ⟨hfind, _⟩ := h2 ⟨2, "Headphones", 79.99, 42, "electronics"⟩ rfl
  refine ⟨h1, ?_⟩
  rw [hfind]
  norm_num

/-- C6 witness: deleting seed user 2 cancels exactly order 2 (the only
pending order of user 2), reports it, removes the user and leaves the
products untouched. -/
theorem delete_user_cascade_w :
    (delete_user seedDB 2).1 = .ok (2, [2]) ∧
    findUser (delete_user seedDB 2).2 2 = none ∧
    (delete_user seedDB 2).2.products = seedDB.products := by
  obtain ⟨h1, h2, h3, h4, h5, h6, h7, h8⟩ := delete_user_cascade seedDB 2 rfl
  refine ⟨?_, h2, h6⟩
  rw [h1]
  rfl

/-- C7 witness: seed product 2 is blocked by one pending order (order 2),
so its deletion conflicts with count 1 and changes nothing; seed product 4
has no referencing order and is deleted. -/
theorem delete_product_guard_w :
    delete_product seedDB 2 = (.error (.conflictPendingOrders 1), seedDB) ∧
    (delete_product seedDB 4).1 = .ok 4 ∧
    findProduct (delete_product seedDB 4).2 4 = none := by
  have hA := (delete_product_guard seedDB 2 rfl).1 (by decide)
  have hB := (delete_product_guard seedDB 4 rfl).2.1 rfl
  exact ⟨hA.trans rfl, hB.1, hB.2.1⟩

end OrderApi
namespace OrderApi

/-- C1 (amended): provided every `create_product` and `update_product`
request carries a nonnegative stock value (the two request fields that the
Pydantic models leave unvalidated), every product's stock is nonnegative
after any sequence of operations from the seed state; in particular order
placement, restocking, cancellation and deletion alone can never drive a
stock negative. -/
theorem stock_nonneg_of_good_stock_requests (ops : List Op)
    (hg : ∀ op ∈ ops, GoodStockOp op) :
    ∀ p ∈ (runOps seedDB ops).products, 0 ≤ p.stock :=
  (stockInv_runOps ops seedDB hg ⟨by decide, by decide⟩ ⟨by decide, by decide⟩).1

/-- C1 witness: after a restock and an order placement from the seed,
product 2 is stored with stock 40, and the theorem applied to that run and
that product yields its nonnegativity. -/
theorem stock_nonneg_of_good_stock_requests_w :
    findProduct (runOps seedDB [Op.restock 1 5, Op.createOrder ⟨1, 2, 2⟩ "t"]) 2 =
      some ⟨2, "Headphones", 79.99, 40, "electronics"⟩ ∧
    0 ≤ (⟨2, "Headphones", 79.99, 40, "electronics"⟩ : Product).stock := by
  have hfind : findProduct
      (runOps seedDB [Op.restock 1 5, Op.createOrder ⟨1, 2, 2⟩ "t"]) 2 =
      some ⟨2, "Headphones", 79.99, 40, "electronics"⟩ := by
    simp [runOps, step, restock_product, create_order, findUser, findProduct,
      seedDB, List.find?, updateById]
  refine ⟨hfind, ?_⟩
  exact stock_nonneg_of_good_stock_requests
    [Op.restock 1 5, Op.createOrder ⟨1, 2, 2⟩ "t"]
    (by
      intro op hop
      rcases List.mem_cons.mp hop with rfl | hop
      · trivial
      rcases List.mem_cons.mp hop with rfl | hop
      · trivial
      cases hop)
    ⟨2, "Headphones", 79.99, 40, "electronics"⟩
    (List.mem_of_find?_eq_some hfind)

/-- C1 counterexample: `ProductUpdate` has no validator on `stock`, so
`update_product` accepts a negative stock outright: from the seed,
patching product 1 with `stock := -5` succeeds and leaves its stored stock
at `-5 < 0`, refuting the claim that accepted operation sequences keep all
stocks nonnegative. -/
theorem update_product_accepts_negative_stock :
    (update_product seedDB 1 ⟨none, none, some (-5), none⟩).1 =
      .ok ⟨1, "Laptop", 999.99, -5, "electronics"⟩ ∧
    findProduct (step seedDB (.updateProduct 1 ⟨none, none, some (-5), none⟩)) 1 =
      some ⟨1, "Laptop", 999.99, -5, "electronics"⟩ ∧
    ((-5 : Int) < 0) := by
  refine ⟨?_, ?_, by decide⟩
  · simp [update_product, findProduct, seedDB, List.find?]
  · simp [step, update_product, findProduct, seedDB, List.find?, updateById]

/-- C8 (amended): `create_user` rejects an email already held by a current
user with a conflict and changes nothing, and email uniqueness holds after
any sequence of operations from the seed in which no `update_user` request
patches an email; `update_user` itself performs no uniqueness check, so an
email-patching update can break the invariant (see the counterexample). -/
theorem create_user_email_guard_and_uniqueness :
    (∀ (db : DB) (body : UserCreate) (tnow : String),
      (∃ u ∈ db.users, u.email = body.email) →
      create_user db body tnow = (.error (.conflictEmail body.email), db)) ∧
    (∀ ops, (∀ op ∈ ops, KeepsEmails op) → EmailUniq (runOps seedDB ops)) := by
  constructor
  · intro db body tnow hdup
    obtain ⟨u, hu, he⟩ := hdup
    have hany : db.users.any (fun u => u.email = body.email) = true :=
      List.any_eq_true.mpr ⟨u, hu, by simp [he]⟩
    simp [create_user, hany]
  · intro ops hg
    exact emailUniq_runOps ops seedDB hg (by unfold EmailUniq; decide)

/-- C8 witness: creating a user with Alice's email conflicts and leaves the
store unchanged; a fresh creation keeps the users' emails pairwise
distinct. -/
theorem create_user_email_guard_and_uniqueness_w :
    create_user seedDB ⟨"Dee", "alice@example.com", .user⟩ "t" =
      (.error (.conflictEmail "alice@example.com"), seedDB) ∧
    EmailUniq (runOps seedDB [Op.createUser ⟨"Diana", "diana@example.com", .user⟩ "t"]) := by
  constructor
  · exact create_user_email_guard_and_uniqueness.1 seedDB
      ⟨"Dee", "alice@example.com", .user⟩ "t"
      ⟨⟨1, "Alice", "alice@example.com", .admin, "2024-01-01"⟩, by decide, rfl⟩
  · exact create_user_email_guard_and_uniqueness.2
      [Op.createUser ⟨"Diana", "diana@example.com", .user⟩ "t"]
      (by
        intro op hop
        rcases List.mem_cons.mp hop with rfl | hop
        · trivial
        cases hop)

/-- C8 counterexample: `update_user` does not check email uniqueness:
patching user 2's email to `alice@example.com` is accepted, after which
users 1 and 2 are both current and share that email, refuting the claim
that no operation can make two current users share an email. -/
theorem update_user_breaks_email_uniqueness :
    (update_user seedDB 2 ⟨none, some "alice@example.com", none⟩).1 =
      .ok ⟨2, "Bob", "alice@example.com", .user, "2024-01-02"⟩ ∧
    findUser (step seedDB (.updateUser 2 ⟨none, some "alice@example.com", none⟩)) 1 =
      some ⟨1, "Alice", "alice@example.com", .admin, "2024-01-01"⟩ ∧
    findUser (step seedDB (.updateUser 2 ⟨none, some "alice@example.com", none⟩)) 2 =
      some ⟨2, "Bob", "alice@example.com", .user, "2024-01-02"⟩ := by
  refine ⟨?_, ?_, ?_⟩
  · simp [update_user, findUser, seedDB, List.find?]
  · simp [step, update_user, findUser, seedDB, List.find?, updateById]
  · simp [step, update_user, findUser, seedDB, List.find?, updateById]

end OrderApi
namespace OrderApi

/-- C9 (amended): in any reset-free sequence of operations from the seed,
the identifiers assigned within each collection are strictly increasing in
assignment order (hence never reused); `reset`, however, restores the id
counters to the seed values `{users 3, products 4, orders 3, notes 0}`, so
identifiers above those values can be handed out again after a reset (see
the counterexample). -/
theorem ids_strictly_increasing_without_reset :
    (∀ ops, Op.reset ∉ ops → ∀ t : Table,
      ((trace seedDB ops).filterMap
        (fun p => if p.1 = t then some p.2 else none)).Pairwise (· < ·)) ∧
    (∀ db : DB, (step db Op.reset).counters = ⟨3, 4, 3, 0⟩) :=
  ⟨fun ops hnr t => trace_pairwise ops seedDB hnr t, fun _ => rfl⟩

/-- C9 witness: a reset-free run assigning user id 4 and note id 1 has a
strictly increasing users trace, and a reset puts the counters back at the
seed values. -/
theorem ids_strictly_increasing_without_reset_w :
    ((trace seedDB [Op.createUser ⟨"Diana", "diana@example.com", .user⟩ "t",
        Op.createNote ⟨"Q4 Goals", "Hit 1M revenue", []⟩ "t"]).filterMap
      (fun p => if p.1 = Table.users then some p.2 else none)).Pairwise (· < ·) ∧
    (step seedDB Op.reset).counters = ⟨3, 4, 3, 0⟩ :=
  ⟨ids_strictly_increasing_without_reset.1
      [Op.createUser ⟨"Diana", "diana@example.com", .user⟩ "t",
        Op.createNote ⟨"Q4 Goals", "Hit 1M revenue", []⟩ "t"]
      (by decide) Table.users,
    ids_strictly_increasing_without_reset.2 seedDB⟩

/-- C9 counterexample: `reset` resets the id counters, so an identifier is
assigned twice within one process lifetime: creating a user, resetting,
and creating another user assigns user id 4 both times, refuting the claim
that no identifier is ever assigned twice across reset calls. -/
theorem id_reused_after_reset :
    trace seedDB [Op.createUser ⟨"Diana", "diana@example.com", .user⟩ "t",
      Op.reset, Op.createUser ⟨"Eve", "eve@example.com", .user⟩ "u"] =
      [(Table.users, 4), (Table.users, 4)] := by
  decide

end OrderApi
namespace OrderApi

/-- C10: an order's `total` is written only at creation.  Stated three
ways: the ghost run records each order's creation-time total and tracks
the real run; after any operation sequence from the seed, every existing
order's `total` equals its recorded creation-time total (price updates,
status transitions and everything else included, `reset` re-creating the
seed orders included); and across any reset-free suffix, an order that
existed before still exists with a bit-identical `total`. -/
theorem order_totals_immutable :
    (∀ ops, (runG (seedDB, orderTotals seedDB.orders) ops).1 = runOps seedDB ops) ∧
    (∀ ops, ∀ o ∈ (runOps seedDB ops).orders,
      (runG (seedDB, orderTotals seedDB.orders) ops).2.lookup o.id = some o.total) ∧
    (∀ more, Op.reset ∉ more → ∀ (db : DB) (i : Nat) (o o2 : Order),
      findOrder db i = some o → findOrder (runOps db more) i = some o2 →
      o2.total = o.total) := by
  have hseed : TotalsInv (seedDB, orderTotals seedDB.orders) := by
    intro o hmem
    have hmem2 : o ∈ seedDB.orders := hmem
    simp only [seedDB] at hmem2
    rcases List.mem_cons.mp hmem2 with rfl | hmem2
    · exact ⟨by decide, rfl⟩
    rcases List.mem_cons.mp hmem2 with rfl | hmem2
    · exact ⟨by decide, rfl⟩
    rcases List.mem_cons.mp hmem2 with rfl | hmem2
    · exact ⟨by decide, rfl⟩
    cases hmem2
  refine ⟨fun ops => runG_fst ops _, ?_, ?_⟩
  · intro ops o hmem
    have hinv := totalsInv_runG ops (seedDB, orderTotals seedDB.orders) hseed
    rw [← runG_fst ops (seedDB, orderTotals seedDB.orders)] at hmem
    exact (hinv o hmem).2
  · intro more hnr db i o o2 h1 h2
    obtain ⟨o3, h3, ht3⟩ := findOrder_runOps_total more hnr db i o h1
    rw [h2] at h3
    injection h3 with h4
    rw [← h4] at ht3
    exact ht3

/-- C10 witness: after updating product 2's price to 1 from the seed,
order 2 still exists with its creation total `159.98`; the reset-free
persistence part of the theorem applies at that run. -/
theorem order_totals_immutable_w :
    findOrder (runOps seedDB [Op.updateProduct 2 ⟨none, some 1, none, none⟩]) 2 =
      some ⟨2, 2, 2, 2, 159.98, .pending, "2024-01-11"⟩ ∧
    (⟨2, 2, 2, 2, 159.98, .pending, "2024-01-11"⟩ : Order).total = 159.98 := by
  have h1 : findOrder (runOps seedDB [Op.updateProduct 2 ⟨none, some 1, none, none⟩]) 2 =
      some ⟨2, 2, 2, 2, 159.98, .pending, "2024-01-11"⟩ := by
    simp [runOps, step, update_product, findOrder, findProduct, seedDB,
      List.find?, updateById]
  exact ⟨h1, order_totals_immutable.2.2 [Op.updateProduct 2 ⟨none, some 1, none, none⟩]
    (by decide) seedDB 2
    ⟨2, 2, 2, 2, 159.98, .pending, "2024-01-11"⟩
    ⟨2, 2, 2, 2, 159.98, .pending, "2024-01-11"⟩ rfl h1⟩

end OrderApi
